import Mathlib

/-!
Verification of the data-generation engine of `animeshkundu/fix`
(`src/src/data_generation/generators/`).

Strings are modelled as `List Char`; Python's `dict` (insertion-ordered) as
association lists; the seeded `random.Random` instance owned by a generator as
an explicit stream state (`Rng`) threaded through every function; floats as
exact rationals.  Every definition below is a direct translation of the
corresponding Python function; the source file and symbol are named in each
doc comment.
-/

namespace FixCorpus

/-- Shorthand turning a string literal into the `List Char` the model works on. -/
def str (s : String) : List Char := s.toList

/-- Python's whitespace class as used by `str.split()` / `str.strip()`
(ASCII part: space, tab, newline, carriage return, vertical tab, form feed). -/
def pySpace (c : Char) : Bool :=
  c == ' ' || c == '\t' || c == '\n' || c == '\r' || c == '\x0b' || c == '\x0c'

/-- Characters matched by the `\w` fragment of the placeholder regex
(ASCII model: letters, digits, underscore). -/
def wordChar (c : Char) : Bool := c.isAlphanum || c == '_'

/-- Boolean test that `pat` begins the list `t` (Python `text.startswith(pat)`). -/
def leadsWith : List Char → List Char → Bool
  | [], _ => true
  | _ :: _, [] => false
  | a :: as, b :: bs => a == b && leadsWith as bs

/-- Python's `pat in text` substring test. -/
def hasSub (pat : List Char) : List Char → Bool
  | [] => pat.isEmpty
  | c :: cs => leadsWith pat (c :: cs) || hasSub pat cs

/-- Python `text.replace(pat, repl, 1)`: replace the leftmost occurrence of a
non-empty `pat` only (the repository never replaces an empty pattern). -/
def replaceOnce (pat repl : List Char) : List Char → List Char
  | [] => []
  | c :: cs =>
    if pat ≠ [] ∧ leadsWith pat (c :: cs) then repl ++ cs.drop (pat.length - 1)
    else c :: replaceOnce pat repl cs

/-- Python `text.replace(pat, repl)`: replace every occurrence, scanning left to
right without rescanning the replacement.  Structured on explicit fuel so the
kernel can evaluate it; the wrapper `replaceAll` passes the text's length,
which always suffices. -/
def replaceAllF (pat repl : List Char) : Nat → List Char → List Char
  | _, [] => []
  | 0, t => t
  | fuel + 1, c :: cs =>
    if pat ≠ [] ∧ leadsWith pat (c :: cs) then
      repl ++ replaceAllF pat repl fuel (cs.drop (pat.length - 1))
    else c :: replaceAllF pat repl fuel cs

/-- Python `text.replace(pat, repl)` for non-empty `pat`. -/
def replaceAll (pat repl t : List Char) : List Char := replaceAllF pat repl t.length t

/-- Python `text.split()`: split on runs of whitespace, discarding empty fields.
Fuel-structured; `pySplit` passes the length. -/
def pySplitF : Nat → List Char → List (List Char)
  | _, [] => []
  | 0, t => [t]
  | fuel + 1, c :: cs =>
    if pySpace c then pySplitF fuel cs
    else (c :: cs.takeWhile (fun d => !pySpace d)) ::
      pySplitF fuel (cs.dropWhile (fun d => !pySpace d))

/-- Python `text.split()` (whitespace split, no empty fields). -/
def pySplit (t : List Char) : List (List Char) := pySplitF t.length t

/-- Python `text.strip()`: drop leading and trailing whitespace. -/
def pyStrip (t : List Char) : List Char :=
  ((t.dropWhile pySpace).reverse.dropWhile pySpace).reverse

/-- Helper for `splitSub`: push a character onto the first field. -/
def consHead (c : Char) : List (List Char) → List (List Char)
  | [] => [[c]]
  | l :: ls => (c :: l) :: ls

/-- Python `sep.join(parts)`. -/
def pyJoin (sep : List Char) : List (List Char) → List Char
  | [] => []
  | [p] => p
  | p :: q :: rest => p ++ sep ++ pyJoin sep (q :: rest)

/-- Python `text.split(sep)` with an explicit non-empty separator: fields may be
empty and separators do not collapse.  Fuel-structured. -/
def splitSubF (sep : List Char) : Nat → List Char → List (List Char)
  | _, [] => [[]]
  | 0, t => [t]
  | fuel + 1, c :: cs =>
    if sep ≠ [] ∧ leadsWith sep (c :: cs) then
      [] :: splitSubF sep fuel (cs.drop (sep.length - 1))
    else consHead c (splitSubF sep fuel cs)

/-- Python `text.split(sep)` for a non-empty separator. -/
def splitSub (sep t : List Char) : List (List Char) := splitSubF sep t.length t

/-- The placeholder names produced by `re.findall(r"\{(\w+)\}", template)`:
scanned left to right, non-overlapping, each match being a brace, a non-empty
word run, and a closing brace.  Fuel-structured. -/
def scanPlaceholdersF : Nat → List Char → List (List Char)
  | _, [] => []
  | 0, _ => []
  | fuel + 1, c :: cs =>
    if c == '{' ∧ cs.takeWhile wordChar ≠ [] ∧
        leadsWith ['}'] (cs.dropWhile wordChar) then
      cs.takeWhile wordChar :: scanPlaceholdersF fuel ((cs.dropWhile wordChar).drop 1)
    else scanPlaceholdersF fuel cs

/-- The placeholder names of a template, in order of appearance (with repeats). -/
def scanPlaceholders (t : List Char) : List (List Char) := scanPlaceholdersF t.length t

/-- The literal text of a placeholder: `"{" + name + "}"`. -/
def braceOf (name : List Char) : List Char := '{' :: (name ++ ['}'])

/-- `BaseGenerator.expand_template` (base_generator.py, lines 208-213): for each
binding entry in order, replace every occurrence of `{key}` in the accumulated
string by the entry's value. -/
def expand_template (template : List Char)
    (binding : List (List Char × List Char)) : List Char :=
  binding.foldl (fun result kv => replaceAll (braceOf kv.1) kv.2 result) template

/-- Modelled from the spec: "`expand(template, binding)`: textual substitution of
every `{name}` occurrence with its bound value; unresolved placeholders that are
not in the binding are left verbatim.  No recursive expansion."  This is the
simultaneous one-pass substitution the spec's words describe: scan the template
once, at each position replace the first binding entry whose placeholder starts
there, and never rescan substituted text.  Kept separate from the code's
`expand_template` so the two can be compared. -/
def expandSpecF (binding : List (List Char × List Char)) : Nat → List Char → List Char
  | _, [] => []
  | 0, t => t
  | fuel + 1, c :: cs =>
    match binding.find? (fun kv => leadsWith (braceOf kv.1) (c :: cs)) with
    | some kv => kv.2 ++ expandSpecF binding fuel ((c :: cs).drop (braceOf kv.1).length)
    | none => c :: expandSpecF binding fuel cs

/-- Simultaneous non-recursive substitution, following the spec's words. -/
def expandSpec (binding : List (List Char × List Char)) (t : List Char) : List Char :=
  expandSpecF binding t.length t

/-- Count of positions where the zipped strings differ (the Python generator's
`sum(1 for a, b in zip(inc, cor) if a != b)`). -/
def countDiff (x y : List Char) : Nat := (x.zip y).countP (fun p => p.1 != p.2)

/-- `SingleCommandGenerator._is_single_char_correction` (single_command_gen.py,
lines 259-274) and the character-identical `ToolsGenerator._is_single_char_correction`
(tools_gen.py, lines 438-451): after stripping, equal length with exactly one
differing position, or length off by one with the shorter equal to the longer
with one character removed. -/
def is_single_char_correction (incorrect correct : List Char) : Bool :=
  let inc := pyStrip incorrect
  let cor := pyStrip correct
  if inc.length = cor.length then countDiff inc cor == 1
  else if inc.length = cor.length + 1 ∨ cor.length = inc.length + 1 then
    let shorter := if inc.length ≤ cor.length then inc else cor
    let longer := if inc.length ≤ cor.length then cor else inc
    (List.range longer.length).any (fun i => shorter == longer.eraseIdx i)
  else false

/-! ## The generator-owned random stream

`BaseGenerator.__init__` (base_generator.py, lines 101-106) creates one seeded
`random.Random(seed)` per generator and every draw goes through it.  The model
makes the pseudo-random stream explicit: `ints` feeds the index-valued draws
(`randint`, `choice`, `shuffle`), `floats` feeds `random()`, and `pos` is the
cursor both share.  A seeded generator corresponds to a fixed pair of streams
with the cursor at 0. -/

/-- Kernel-computable product of rationals (the ambient `*` on `Rat` does not
reduce inside `decide`); `ratMul_eq` certifies it against the ambient product. -/
def ratMul (a b : Rat) : Rat := mkRat (a.num * b.num) (a.den * b.den)

/-- Kernel-computable sum of rationals; `ratAdd_eq` certifies it. -/
def ratAdd (a b : Rat) : Rat := mkRat (a.num * b.den + b.num * a.den) (a.den * b.den)

/-- Kernel-computable difference of rationals; `ratSub_eq` certifies it. -/
def ratSub (a b : Rat) : Rat := mkRat (a.num * b.den - b.num * a.den) (a.den * b.den)

/-- Kernel-computable sum of a list of rationals. -/
def ratSum (l : List Rat) : Rat := l.foldr ratAdd (mkRat 0 1)

/-- The custom product agrees with the ambient one. -/
theorem ratMul_eq (a b : Rat) : ratMul a b = a * b := by
  have ha : ((a.den : ℚ)) ≠ 0 := by exact_mod_cast a.den_pos.ne'
  have hb : ((b.den : ℚ)) ≠ 0 := by exact_mod_cast b.den_pos.ne'
  have h1 : ((a.num : ℚ)) = a * a.den := (div_eq_iff ha).mp (Rat.num_div_den a)
  have h2 : ((b.num : ℚ)) = b * b.den := (div_eq_iff hb).mp (Rat.num_div_den b)
  rw [ratMul, Rat.mkRat_eq_divInt, Rat.divInt_eq_div]
  push_cast
  field_simp
  rw [h1, h2]
  ring

/-- The custom sum agrees with the ambient one. -/
theorem ratAdd_eq (a b : Rat) : ratAdd a b = a + b := by
  have ha : ((a.den : ℚ)) ≠ 0 := by exact_mod_cast a.den_pos.ne'
  have hb : ((b.den : ℚ)) ≠ 0 := by exact_mod_cast b.den_pos.ne'
  have h1 : ((a.num : ℚ)) = a * a.den := (div_eq_iff ha).mp (Rat.num_div_den a)
  have h2 : ((b.num : ℚ)) = b * b.den := (div_eq_iff hb).mp (Rat.num_div_den b)
  rw [ratAdd, Rat.mkRat_eq_divInt, Rat.divInt_eq_div]
  push_cast
  field_simp
  rw [h1, h2]
  ring

/-- The custom difference agrees with the ambient one. -/
theorem ratSub_eq (a b : Rat) : ratSub a b = a - b := by
  have ha : ((a.den : ℚ)) ≠ 0 := by exact_mod_cast a.den_pos.ne'
  have hb : ((b.den : ℚ)) ≠ 0 := by exact_mod_cast b.den_pos.ne'
  have h1 : ((a.num : ℚ)) = a * a.den := (div_eq_iff ha).mp (Rat.num_div_den a)
  have h2 : ((b.num : ℚ)) = b * b.den := (div_eq_iff hb).mp (Rat.num_div_den b)
  rw [ratSub, Rat.mkRat_eq_divInt, Rat.divInt_eq_div]
  push_cast
  field_simp
  rw [h1, h2]
  ring

structure Rng where
  ints : Nat → Nat
  floats : Nat → Rat
  pos : Nat

/-- One `self.rng.random()` draw. -/
def randFloat (r : Rng) : Rat × Rng := (r.floats r.pos, { r with pos := r.pos + 1 })

/-- One index draw below `bound` (models `randint`/`choice`/`shuffle` index picks). -/
def randNat (r : Rng) (bound : Nat) : Nat × Rng :=
  (r.ints r.pos % bound, { r with pos := r.pos + 1 })

/-- Python `rng.choice(l)`: one index draw, then the element. -/
def choose [Inhabited α] (r : Rng) (l : List α) : α × Rng :=
  let (i, r') := randNat r l.length
  (l.getD i default, r')

/-- The index `random.choices` derives from one uniform draw scaled by the weight
total: the first index whose cumulative weight exceeds the target. -/
def pickWeighted (target : Rat) : List Rat → Nat
  | [] => 0
  | w :: ws => if target < w then 0 else pickWeighted (ratSub target w) ws + 1

/-- Python `rng.choices(items, weights=ws, k=1)[0]`: one uniform draw, scaled by
the weight total, located in the cumulative weights. -/
def weightedChoice [Inhabited α] (r : Rng) (items : List α) (ws : List Rat) : α × Rng :=
  let (q, r') := randFloat r
  (items.getD (pickWeighted (ratMul q (ratSum ws)) ws) default, r')

/-- Python `rng.shuffle`, modelled as the rng-driven permutation that repeatedly
draws an index and moves that element to the front of the remainder.  The claims
depend only on the result being an rng-determined permutation of the input.
Fuel-structured on the list length. -/
def shuffleF [Inhabited α] : Nat → List α → Rng → List α × Rng
  | 0, l, r => (l, r)
  | _ + 1, [], r => ([], r)
  | fuel + 1, x :: xs, r =>
    let (i, r') := randNat r (x :: xs).length
    let (rest, r'') := shuffleF fuel ((x :: xs).eraseIdx i) r'
    ((x :: xs).getD i default :: rest, r'')

/-- Python `rng.shuffle(l)` (returning the permuted list). -/
def shuffleModel [Inhabited α] (l : List α) (r : Rng) : List α × Rng := shuffleF l.length l r

/-! ## Training examples and base-generator primitives -/

/-- `TrainingExample` (base_generator.py, lines 20-30). -/
structure TrainingExample where
  shell : List Char
  incorrect_command : List Char
  correct_command : List Char
  category : List Char
  error_type : List Char
  source : List Char
  metadata : List (List Char × List Char)
deriving DecidableEq, Inhabited, Repr

/-- The filter every generator's `generate` applies:
`ex.incorrect_command.strip() != ex.correct_command.strip()`. -/
def okPair (ex : TrainingExample) : Bool :=
  !(pyStrip ex.incorrect_command == pyStrip ex.correct_command)

/-- `BaseGenerator.SHELL_WEIGHTS` (base_generator.py, lines 62-69), in the
dict's insertion order (bash first). -/
def SHELL_WEIGHTS : List (List Char × Rat) :=
  [(str "bash", mkRat 35 100), (str "zsh", mkRat 25 100),
   (str "powershell", mkRat 20 100), (str "cmd", mkRat 12 100),
   (str "fish", mkRat 5 100), (str "tcsh", mkRat 3 100)]

/-- `BaseGenerator.KEYBOARD_ADJACENT` (base_generator.py, lines 72-99). -/
def KEYBOARD_ADJACENT : List (Char × List Char) :=
  [('a', str "qwsz"), ('b', str "vghn"), ('c', str "xdfv"), ('d', str "serfcx"),
   ('e', str "wsdr"), ('f', str "drtgcv"), ('g', str "ftyhbv"), ('h', str "gyujnb"),
   ('i', str "ujko"), ('j', str "huiknm"), ('k', str "jiolm"), ('l', str "kop"),
   ('m', str "njk"), ('n', str "bhjm"), ('o', str "iklp"), ('p', str "ol"),
   ('q', str "wa"), ('r', str "edft"), ('s', str "awedxz"), ('t', str "rfgy"),
   ('u', str "yhji"), ('v', str "cfgb"), ('w', str "qase"), ('x', str "zsdc"),
   ('y', str "tghu"), ('z', str "asx")]

/-- The per-name value pools (`COMMON_VARIABLES`, base_generator.py lines
242-411) are static catalog data, supplied to the model as a parameter. -/
def VarTable := List (List Char × List (List Char))

/-- `get_random_variable` (base_generator.py, lines 414-418): sample from the
name's pool when one exists, otherwise degrade to the literal name without
consuming randomness. -/
def get_random_variable (table : VarTable) (var_name : List Char) (r : Rng) :
    List Char × Rng :=
  match (table : List _).find? (fun kv => kv.1 == var_name) with
  | some kv => choose r kv.2
  | none => (var_name, r)

/-- The `_extract_variables` helper shared by the generators
(single_command_gen.py lines 209-218, chained_command_gen.py lines 519-530,
tools_gen.py lines 424-436, natural_lang_gen.py lines 477-489): walk the
template's placeholders in order, sampling a value once per new name. -/
def extract_variables (table : VarTable) (template : List Char) (r : Rng) :
    List (List Char × List Char) × Rng :=
  (scanPlaceholders template).foldl
    (fun (acc : List (List Char × List Char) × Rng) ph =>
      if acc.1.any (fun kv => kv.1 == ph) then acc
      else
        let (v, r') := get_random_variable table ph acc.2
        (acc.1 ++ [(ph, v)], r'))
    ([], r)

/-- `BaseGenerator.generate_typo` (base_generator.py, lines 122-175). -/
def generate_typo (text : List Char) (typo_rate : Rat) (r : Rng) : List Char × Rng :=
  if text = [] then (text, r)
  else
    let (q, r1) := randFloat r
    if typo_rate < q then (text, r1)
    else
      let words := pySplit text
      if words = [] then (text, r1)
      else
        let (qw, r2) := randFloat r1
        let idx := pickWeighted
          (ratMul qw (ratSum (words.map (fun w => (w.length : Rat)))))
          (words.map (fun w => (w.length : Rat)))
        let word := words.getD idx []
        if word.length < 2 then (text, r2)
        else
          let (t, r3) := randNat r2 5
          -- typo types in the source's order: swap, delete, insert, adjacent, double
          let (word', r4) :=
            if t = 0 ∧ 3 ≤ word.length then
              let (pos, ra) := randNat r3 (word.length - 1)  -- randint(0, len-2)
              (word.take pos ++ [word.getD (pos + 1) ' ', word.getD pos ' '] ++
                word.drop (pos + 2), ra)
            else if t = 1 ∧ 3 ≤ word.length then
              let (k, ra) := randNat r3 (word.length - 1)    -- randint(1, len-1)
              let pos := 1 + k
              (word.take pos ++ word.drop (pos + 1), ra)
            else if t = 2 then
              let (k, ra) := randNat r3 (word.length - 1)    -- randint(1, len-1)
              let pos := 1 + k
              let (ch, rb) := choose ra (str "abcdefghijklmnopqrstuvwxyz")
              (word.take pos ++ [ch] ++ word.drop pos, rb)
            else if t = 3 then
              let (pos, ra) := randNat r3 word.length        -- randint(0, len-1)
              let ch := (word.getD pos ' ').toLower
              match KEYBOARD_ADJACENT.find? (fun kv => kv.1 == ch) with
              | some kv =>
                let (nc, rb) := choose ra kv.2
                (word.take pos ++ [nc] ++ word.drop (pos + 1), rb)
              | none => (word, ra)
            else if t = 4 ∧ 2 ≤ word.length then
              let (pos, ra) := randNat r3 word.length        -- randint(0, len-1)
              (word.take pos ++ [word.getD pos ' '] ++ word.drop pos, ra)
            else (word, r3)
          (pyJoin [' '] (words.set idx word'), r4)

/-- `BaseGenerator.remove_space` (base_generator.py, lines 177-187): join two
randomly chosen adjacent whitespace-separated tokens. -/
def remove_space (text : List Char) (r : Rng) : List Char × Rng :=
  let parts := pySplit text
  if parts.length < 2 then (text, r)
  else
    let (idx, r') := randNat r (parts.length - 1)  -- randint(0, len-2)
    let merged := parts.take idx ++ [parts.getD idx [] ++ parts.getD (idx + 1) []] ++
      parts.drop (idx + 2)
    (pyJoin [' '] merged, r')

/-- `BaseGenerator.wrong_flag` (base_generator.py, lines 189-195).  When a
long-flag marker is present the demotion happens only on a coin flip
(`self.rng.random() > 0.5`); with the coin at or below one half the `elif`
fails (the text still contains the long marker) and the input is returned
unchanged. -/
def wrong_flag (text : List Char) (r : Rng) : List Char × Rng :=
  if hasSub (str " --") text then
    let (q, r') := randFloat r
    if mkRat 1 2 < q then (replaceOnce (str " --") (str " -") text, r')
    else (text, r')
  else if hasSub (str " -") text then (replaceOnce (str " -") (str " --") text, r)
  else (text, r)

/-! ## ChainedCommandGenerator (chained_command_gen.py)

The literal `PIPE_PATTERNS` / `CHAINING_PATTERNS` / `REDIRECTION_PATTERNS`
tables are static catalog data, supplied as a parameter. -/

/-- One pattern entry `{correct, errors, category}`. -/
structure Pattern where
  correct : List Char
  errors : List (List Char)
  category : List Char
deriving DecidableEq, Inhabited, Repr

/-- The three per-shell pattern tables of `ChainedCommandGenerator`. -/
structure ChainedCatalog where
  pipe : List (List Char × List Pattern)
  chain : List (List Char × List Pattern)
  redir : List (List Char × List Pattern)

/-- Python `TABLE.get(shell, TABLE.get("bash", []))` (chained_command_gen.py,
lines 439-441). -/
def lookupShell (m : List (List Char × List Pattern)) (shell : List Char) : List Pattern :=
  match m.find? (fun kv => kv.1 == shell) with
  | some kv => kv.2
  | none =>
    match m.find? (fun kv => kv.1 == str "bash") with
    | some kv => kv.2
    | none => []

/-- `ChainedCommandGenerator._select_error_type` (lines 465-469) over
`ERROR_DISTRIBUTION = {pipe 0.40, chaining 0.30, redirection 0.20, subshell 0.10}`. -/
def chained_select_error_type (r : Rng) : List Char × Rng :=
  weightedChoice r [str "pipe", str "chaining", str "redirection", str "subshell"]
    [mkRat 4 10, mkRat 3 10, mkRat 2 10, mkRat 1 10]

/-- `ChainedCommandGenerator._generate_synthetic_error` (lines 532-560). -/
def chained_synthetic (correct : List Char) (error_type : List Char) (r : Rng) :
    List Char × Rng :=
  if error_type == str "pipe" then
    if hasSub (str " | ") correct then
      let parts := splitSub (str " | ") correct
      if 2 < parts.length then
        let (k, r') := randNat r (parts.length - 1)  -- randint(1, len-1)
        let idx := 1 + k
        (pyJoin (str " | ") (parts.take idx ++ parts.drop (idx + 1)), r')
      else generate_typo correct (mkRat 15 100) r
    else generate_typo correct (mkRat 15 100) r
  else if error_type == str "chaining" then
    if hasSub (str " && ") correct then (replaceOnce (str " && ") (str "; ") correct, r)
    else if hasSub (str " || ") correct then
      (replaceOnce (str " || ") (str " | ") correct, r)
    else generate_typo correct (mkRat 15 100) r
  else if error_type == str "redirection" then
    if hasSub (str "2>&1") correct then (replaceOnce (str "2>&1") (str "2>1") correct, r)
    else if hasSub (str ">>") correct then (replaceOnce (str ">>") (str ">") correct, r)
    else generate_typo correct (mkRat 15 100) r
  else generate_typo correct (mkRat 15 100) r

/-- `ChainedCommandGenerator._create_example_from_pattern` (lines 471-517):
extract one binding from the correct template, expand the correct side, then
with probability 0.7 (when author-supplied wrong templates exist) expand a
chosen wrong template under the same binding, otherwise corrupt the expanded
correct string; escalate through synthetic error and forced typo when the
candidate strips equal, and return nothing if it still does. -/
def chained_create_example (tbl : VarTable) (shell : List Char) (p : Pattern)
    (error_type : List Char) (r : Rng) : Option TrainingExample × Rng :=
  if p.correct = [] then (none, r)
  else
    let (binding, r1) := extract_variables tbl p.correct r
    let correct_cmd := expand_template p.correct binding
    let (incorrect_cmd, r2) :=
      if p.errors ≠ [] then
        let (q, ra) := randFloat r1
        if q < mkRat 7 10 then
          let (errT, rb) := choose ra p.errors
          (expand_template errT binding, rb)
        else chained_synthetic correct_cmd error_type ra
      else chained_synthetic correct_cmd error_type r1
    let (finalInc, r3) :=
      if pyStrip incorrect_cmd == pyStrip correct_cmd then
        let (inc2, ra) := chained_synthetic correct_cmd error_type r2
        if pyStrip inc2 == pyStrip correct_cmd then
          let (inc3, rb) := generate_typo correct_cmd (mkRat 1 1) ra
          ((if pyStrip inc3 == pyStrip correct_cmd then none else some inc3), rb)
        else (some inc2, ra)
      else (some incorrect_cmd, r2)
    match finalInc with
    | none => (none, r3)
    | some inc =>
      (some { shell := shell, incorrect_command := inc, correct_command := correct_cmd,
              category := p.category, error_type := error_type,
              source := str "chained_pattern", metadata := [] }, r3)

/-- `ChainedCommandGenerator._generate_for_shell` (lines 434-463): per draw pick
an error type, then a pattern from the matching pool (falling back to the
concatenation of all pools, skipping the draw when every pool is empty). -/
def chained_gen_for_shell (cat : ChainedCatalog) (tbl : VarTable) (shell : List Char) :
    Nat → Rng → List TrainingExample × Rng
  | 0, r => ([], r)
  | n + 1, r =>
    let pipePs := lookupShell cat.pipe shell
    let chainPs := lookupShell cat.chain shell
    let redirPs := lookupShell cat.redir shell
    let (et, r1) := chained_select_error_type r
    let (pOpt, r2) :=
      if et == str "pipe" ∧ pipePs ≠ [] then
        let (p, ra) := choose r1 pipePs
        (some p, ra)
      else if et == str "chaining" ∧ chainPs ≠ [] then
        let (p, ra) := choose r1 chainPs
        (some p, ra)
      else if et == str "redirection" ∧ redirPs ≠ [] then
        let (p, ra) := choose r1 redirPs
        (some p, ra)
      else
        let allPs := pipePs ++ chainPs ++ redirPs
        if allPs = [] then (none, r1)
        else
          let (p, ra) := choose r1 allPs
          (some p, ra)
    match pOpt with
    | none => chained_gen_for_shell cat tbl shell n r2
    | some p =>
      let (exOpt, r3) := chained_create_example tbl shell p et r2
      let (rest, r4) := chained_gen_for_shell cat tbl shell n r3
      (match exOpt with | some ex => ex :: rest | none => rest, r4)

/-- The shared `int(count * weight)` per-shell count (exact-arithmetic model of
the float product's truncation). -/
def shellCount (count : Nat) (w : Rat) : Nat := (ratMul (count : Rat) w).floor.toNat

/-- The per-shell target counts every `generate` builds (e.g.
chained_command_gen.py lines 397-405): truncate `count * weight` per shell, then
credit the rounding remainder to bash, the dict's first key. -/
def shell_counts (count : Nat) : List (List Char × Nat) :=
  let base := SHELL_WEIGHTS.map (fun sw => (sw.1, shellCount count sw.2))
  let total := (base.map Prod.snd).sum
  if total < count then
    match base with
    | [] => []
    | b :: rest => (b.1, b.2 + (count - total)) :: rest
  else base

/-- The deficit-recovery loop of `ChainedCommandGenerator.generate`
(lines 417-429): up to 3 rounds, generate `deficit * 2` bash examples,
keep the ones whose stripped sides differ. -/
def chained_retry (cat : ChainedCatalog) (tbl : VarTable) (count : Nat) :
    Nat → List TrainingExample → Rng → List TrainingExample × Rng
  | 0, exs, r => (exs, r)
  | f + 1, exs, r =>
    if exs.length < count then
      let deficit := count - exs.length
      let (extra, r') := chained_gen_for_shell cat tbl (str "bash") (deficit * 2) r
      chained_retry cat tbl count f (exs ++ extra.filter okPair) r'
    else (exs, r)

/-- `ChainedCommandGenerator.generate` (lines 392-432): per-shell generation,
null-correction filter, deficit retries, shuffle, truncate to `count`. -/
def chained_generate (cat : ChainedCatalog) (tbl : VarTable) (count : Nat) (r : Rng) :
    List TrainingExample × Rng :=
  let counts := shell_counts count
  let (examples, r1) := counts.foldl
    (fun (acc : List TrainingExample × Rng) sc =>
      let (es, r') := chained_gen_for_shell cat tbl sc.1 sc.2 acc.2
      (acc.1 ++ es, r'))
    ([], r)
  let filtered := examples.filter okPair
  let (pooled, r2) := chained_retry cat tbl count 3 filtered r1
  let (shuffled, r3) := shuffleModel pooled r2
  (shuffled.take count, r3)

/-! ## ToolsGenerator (tools_gen.py)

The literal `TOOLS` table is static catalog data, supplied as a parameter. -/

/-- One tool command entry `{correct, errors}`. -/
structure ToolCmd where
  correct : List Char
  errors : List (List Char)
deriving DecidableEq, Inhabited, Repr

/-- The `TOOLS` catalog shape: category → tool name → command entries. -/
def ToolsCatalog := List (List Char × List (List Char × List ToolCmd))

/-- The flattening of `TOOLS` built at the top of `ToolsGenerator.generate`
(lines 307-311), in the dicts' insertion order. -/
def flattenTools (catalog : ToolsCatalog) : List (List Char × List Char × ToolCmd) :=
  (catalog : List _).foldr
    (fun c acc =>
      c.2.foldr (fun t acc' => t.2.map (fun cmd => (c.1, t.1, cmd)) ++ acc') acc)
    []

/-- The maximum single-character-correction count
`int(count * MAX_SINGLE_CHAR_PERCENTAGE)` with `MAX_SINGLE_CHAR_PERCENTAGE = 0.05`
(tools_gen.py line 351, single_command_gen.py line 108), in exact arithmetic. -/
def maxSingleChar (count : Nat) : Nat := (ratMul (count : Rat) (mkRat 5 100)).floor.toNat

/-- The single-character retry loop inside `ToolsGenerator._create_example`
(lines 396-408): while the candidate classifies as a single-character
correction, try a space removal, then a fresh predefined error (or a forced
typo when none exist). -/
def tools_retry_single_char (cmd : ToolCmd) (binding : List (List Char × List Char))
    (correct : List Char) : Nat → List Char → Rng → List Char × Rng
  | 0, inc, r => (inc, r)
  | f + 1, inc, r =>
    if is_single_char_correction inc correct then
      let (inc1, r1) := remove_space correct r
      let (inc2, r2) :=
        if inc1 = correct ∨ is_single_char_correction inc1 correct then
          if cmd.errors ≠ [] then
            let (errT, ra) := choose r1 cmd.errors
            (expand_template errT binding, ra)
          else generate_typo correct (mkRat 1 1) r1
        else (inc1, r1)
      tools_retry_single_char cmd binding correct f inc2 r2
    else (inc, r)

/-- `ToolsGenerator._create_example` (lines 371-422): one binding extracted from
the correct template; with probability 0.7 (when wrong templates exist) an
author-supplied wrong template expanded under the same binding, otherwise a
forced typo on the expanded correct string; then the single-character retry
loop and the final null check. -/
def tools_create_example (tbl : VarTable) (shell category tool_name : List Char)
    (cmd : ToolCmd) (r : Rng) : Option TrainingExample × Rng :=
  if cmd.correct = [] then (none, r)
  else
    let (binding, r1) := extract_variables tbl cmd.correct r
    let correct := expand_template cmd.correct binding
    let (incorrect, r2) :=
      if cmd.errors ≠ [] then
        let (q, ra) := randFloat r1
        if q < mkRat 7 10 then
          let (errT, rb) := choose ra cmd.errors
          (expand_template errT binding, rb)
        else generate_typo correct (mkRat 1 1) ra
      else generate_typo correct (mkRat 1 1) r1
    let (incorrect2, r3) := tools_retry_single_char cmd binding correct 3 incorrect r2
    if pyStrip incorrect2 == pyStrip correct then (none, r3)
    else
      (some { shell := shell, incorrect_command := incorrect2, correct_command := correct,
              category := str "tools_" ++ category, error_type := str "tool_specific",
              source := str "tools_pattern", metadata := [(str "tool", tool_name)] }, r3)

/-- The per-shell loop of `ToolsGenerator.generate` (lines 323-328). -/
def tools_gen_loop (allTools : List (List Char × List Char × ToolCmd)) (tbl : VarTable)
    (shell : List Char) : Nat → Rng → List TrainingExample × Rng
  | 0, r => ([], r)
  | n + 1, r =>
    let (trip, r1) := choose r allTools
    let (exOpt, r2) := tools_create_example tbl shell trip.1 trip.2.1 trip.2.2 r1
    let (rest, r3) := tools_gen_loop allTools tbl shell n r2
    (match exOpt with | some ex => ex :: rest | none => rest, r3)

/-- One deficit round of `ToolsGenerator.generate` (lines 341-345): `deficit * 2`
bash draws, appending each example that passes the null check. -/
def tools_retry_inner (allTools : List (List Char × List Char × ToolCmd)) (tbl : VarTable) :
    Nat → List TrainingExample → Rng → List TrainingExample × Rng
  | 0, exs, r => (exs, r)
  | m + 1, exs, r =>
    let (trip, r1) := choose r allTools
    let (exOpt, r2) := tools_create_example tbl (str "bash") trip.1 trip.2.1 trip.2.2 r1
    let exs' := match exOpt with
      | some ex => if okPair ex then exs ++ [ex] else exs
      | none => exs
    tools_retry_inner allTools tbl m exs' r2

/-- The deficit-recovery loop of `ToolsGenerator.generate` (lines 337-346). -/
def tools_retry_rounds (allTools : List (List Char × List Char × ToolCmd)) (tbl : VarTable)
    (count : Nat) : Nat → List TrainingExample → Rng → List TrainingExample × Rng
  | 0, exs, r => (exs, r)
  | f + 1, exs, r =>
    if exs.length < count then
      let deficit := count - exs.length
      let (exs', r') := tools_retry_inner allTools tbl (deficit * 2) exs r
      tools_retry_rounds allTools tbl count f exs' r'
    else (exs, r)

/-- Whether an example classifies as a single-character correction. -/
def exSingle (ex : TrainingExample) : Bool :=
  is_single_char_correction ex.incorrect_command ex.correct_command

/-- The single-character cap applied after pooling by `ToolsGenerator.generate`
(lines 350-367) and, identically, by `SingleCommandGenerator.generate`
(lines 107-124): partition, truncate the single-character side to
`int(count * 0.05)`, recombine, reshuffle. -/
def capSingleChar (count : Nat) (examples : List TrainingExample) (r : Rng) :
    List TrainingExample × Rng :=
  let maxSC := maxSingleChar count
  let single_char_examples := examples.filter exSingle
  let multi_char_examples := examples.filter (fun ex => !exSingle ex)
  let single_kept :=
    if maxSC < single_char_examples.length then single_char_examples.take maxSC
    else single_char_examples
  shuffleModel (multi_char_examples ++ single_kept) r

/-- `ToolsGenerator.generate` (lines 302-369): flatten the catalog, per-shell
generation, null filter, deficit retries, shuffle, single-character cap,
truncate to `count`. -/
def tools_generate (catalog : ToolsCatalog) (tbl : VarTable) (count : Nat) (r : Rng) :
    List TrainingExample × Rng :=
  let allTools := flattenTools catalog
  let counts := shell_counts count
  let (examples, r1) := counts.foldl
    (fun (acc : List TrainingExample × Rng) sc =>
      let (es, r') := tools_gen_loop allTools tbl sc.1 sc.2 acc.2
      (acc.1 ++ es, r'))
    ([], r)
  let filtered := examples.filter okPair
  let (pooled, r2) := tools_retry_rounds allTools tbl count 3 filtered r1
  let (shuffled, r3) := shuffleModel pooled r2
  let (capped, r4) := capSingleChar count shuffled r3
  (capped.take count, r4)

/-! ## SingleCommandGenerator (single_command_gen.py)

The per-shell YAML template tables are loaded from files (out of core scope)
and supplied as a parameter: shell → category → entries. -/

/-- The shape of the loaded per-shell templates. -/
def SingleTemplates := List (List Char × List (List Char × List ToolCmd))

/-- `SingleCommandGenerator.CATEGORIES` (lines 40-55). -/
def CATEGORIES : List (List Char) :=
  [str "navigation", str "file_operations", str "search", str "processes",
   str "network", str "git", str "packages", str "compression", str "text",
   str "system", str "docker", str "kubernetes", str "variables", str "help"]

/-- `SingleCommandGenerator._select_error_type` (lines 220-224) over
`ERROR_DISTRIBUTION = {typo 0.15, wrong_flag 0.25, permission 0.15, path 0.20,
syntax 0.25}`. -/
def single_select_error_type (r : Rng) : List Char × Rng :=
  weightedChoice r
    [str "typo", str "wrong_flag", str "permission", str "path", str "syntax"]
    [mkRat 15 100, mkRat 25 100, mkRat 15 100, mkRat 20 100, mkRat 25 100]

/-- Replace the first list element satisfying the test (the `for ... break`
loops of `_generate_flag_error`). -/
def applyFirst (p : α → Bool) (f : α → α) : List α → List α
  | [] => []
  | x :: xs => if p x then f x :: xs else x :: applyFirst p f xs

/-- The flag-argument removal loop of `_generate_flag_error` (lines 336-342):
drop the token after the first flag token that is followed by a non-flag. -/
def popAfterFlag : List (List Char) → List (List Char)
  | [] => []
  | [x] => [x]
  | x :: y :: rest =>
    if leadsWith (str "-") x ∧ ¬ leadsWith (str "-") y then x :: rest
    else x :: popAfterFlag (y :: rest)

/-- `SingleCommandGenerator._generate_flag_error` (lines 318-344). -/
def single_flag_error (correct : List Char) (_shell : List Char) (r : Rng) :
    List Char × Rng :=
  let result1 :=
    if hasSub (str " --") correct then replaceOnce (str " --") (str " -") correct
    else if hasSub (str " -") correct then
      pyJoin [' ']
        (applyFirst
          (fun p => leadsWith (str "-") p ∧ ¬ leadsWith (str "--") p ∧ 2 < p.length)
          (fun p => '-' :: p) (pySplit correct))
    else correct
  let (q, r1) := randFloat r
  let result2 :=
    if q < mkRat 3 10 then pyJoin [' '] (popAfterFlag (pySplit result1))
    else result1
  if result2 = correct then generate_typo correct (mkRat 15 100) r1 else (result2, r1)

/-- `SingleCommandGenerator._generate_permission_error` (lines 346-370).  Every
branch of the source except the leading "sudo " strip returns the input
unchanged (both the sudo_commands scan and the powershell case end in
`return correct`), so the function reduces to stripping a leading "sudo ". -/
def single_permission_error (correct : List Char) (_shell : List Char) (r : Rng) :
    List Char × Rng :=
  if leadsWith (str "sudo ") correct then (correct.drop 5, r) else (correct, r)

/-- The segment-merging loop of the `missing_slash` case of
`_generate_path_error` (lines 390-404): in the first token with more than two
slash segments, join a random adjacent segment pair. -/
def merge_slash_first : List (List Char) → Rng → List (List Char) × Rng
  | [], r => ([], r)
  | part :: rest, r =>
    if hasSub (str "/") part then
      let segments := splitSub (str "/") part
      if 2 < segments.length then
        let (idx, r') := randNat r (segments.length - 1)  -- randint(0, len-2)
        let segs := segments.take idx ++
          [segments.getD idx [] ++ segments.getD (idx + 1) []] ++
          segments.drop (idx + 2)
        (pyJoin (str "/") segs :: rest, r')
      else
        let (rest', r') := merge_slash_first rest r
        (part :: rest', r')
    else
      let (rest', r') := merge_slash_first rest r
      (part :: rest', r')

/-- `SingleCommandGenerator._generate_path_error` (lines 372-415).  The subtype
draw indexes `[relative_absolute, missing_slash, typo_in_path, wrong_separator]`. -/
def single_path_error (correct : List Char) (r : Rng) : List Char × Rng :=
  let (sub, r1) := randNat r 4
  let (result, r2) :=
    if sub = 0 then
      (if hasSub (str "./") correct then (replaceOnce (str "./") (str "/") correct, r1)
       else if leadsWith (str "/") correct then ('.' :: correct, r1)
       else (correct, r1))
    else if sub = 1 then
      (if hasSub (str "/") correct then
        let (parts, ra) := merge_slash_first (pySplit correct) r1
        (pyJoin [' '] parts, ra)
       else (correct, r1))
    else if sub = 2 then generate_typo correct (mkRat 1 1) r1
    else
      (if hasSub (str "/") correct then
        let (q, ra) := randFloat r1
        if q < mkRat 1 2 then (replaceOnce (str "/") (str "\\") correct, ra)
        else (correct, ra)
       else (correct, r1))
  if result = correct then generate_typo correct (mkRat 15 100) r2 else (result, r2)

/-- The operator-downgrade loop of the `wrong_operator` case of
`_generate_syntax_error` (lines 441-452). -/
def wrong_operator_fix : List (List Char × List Char) → List Char → List Char
  | [], result => result
  | (op, wrongOp) :: rest, result =>
    if hasSub op result then replaceOnce op wrongOp result
    else wrong_operator_fix rest result

/-- `SingleCommandGenerator._generate_syntax_error` (lines 417-465).  The
subtype draw indexes `[missing_quote, missing_escape, wrong_operator,
extra_character]`. -/
def single_syntax_error (correct : List Char) (_shell : List Char) (r : Rng) :
    List Char × Rng :=
  let (sub, r1) := randNat r 4
  let (result, r2) :=
    if sub = 0 then
      (if hasSub (str "\"") correct then (replaceOnce (str "\"") [] correct, r1)
       else if hasSub (str "'") correct then (replaceOnce (str "'") [] correct, r1)
       else (correct, r1))
    else if sub = 1 then
      (if hasSub (str "\\") correct then (replaceOnce (str "\\") [] correct, r1)
       else (correct, r1))
    else if sub = 2 then
      (wrong_operator_fix
        [(str "&&", str "&"), (str "||", str "|"), (str ">>", str ">"),
         (str "==", str "=")] correct, r1)
    else
      let words := pySplit correct
      if words ≠ [] then
        let (idx, ra) := randNat r1 words.length          -- randint(0, len-1)
        let word := words.getD idx []
        let (k, rb) := randNat ra (word.length + 1)       -- randint(0, len(word))
        let (ch, rc) := choose rb ['{', '}', '[', ']', '(', ')', ';']
        (pyJoin [' ']
          (words.set idx (word.take k ++ [ch] ++ word.drop k)), rc)
      else (correct, r1)
  if result = correct then generate_typo correct (mkRat 15 100) r2 else (result, r2)

/-- `SingleCommandGenerator._generate_typo_error` (lines 276-316).  The weighted
subtype draw favours `missing_space` with weight 0.80; branches whose length
guard fails fall through to a default-rate typo. -/
def single_typo_error (correct : List Char) (r : Rng) : List Char × Rng :=
  let (sub, r1) := weightedChoice r
    [str "char_swap", str "char_delete", str "char_double", str "adjacent_key",
     str "missing_space"]
    [mkRat 5 100, mkRat 5 100, mkRat 5 100, mkRat 5 100, mkRat 80 100]
  if sub == str "char_swap" then generate_typo correct (mkRat 1 1) r1
  else if sub == str "char_delete" then
    let words := pySplit correct
    if words ≠ [] then
      let (idx, r2) := randNat r1 words.length            -- randint(0, len-1)
      let word := words.getD idx []
      if 2 < word.length then
        let (k, r3) := randNat r2 (word.length - 1)       -- randint(1, len-1)
        let pos := 1 + k
        (pyJoin [' ']
          (words.set idx (word.take pos ++ word.drop (pos + 1))), r3)
      else generate_typo correct (mkRat 15 100) r2
    else generate_typo correct (mkRat 15 100) r1
  else if sub == str "char_double" then
    let words := pySplit correct
    if words ≠ [] then
      let (idx, r2) := randNat r1 words.length
      let word := words.getD idx []
      if 1 < word.length then
        let (pos, r3) := randNat r2 word.length           -- randint(0, len-1)
        (pyJoin [' ']
          (words.set idx (word.take pos ++ [word.getD pos ' '] ++ word.drop pos)), r3)
      else generate_typo correct (mkRat 15 100) r2
    else generate_typo correct (mkRat 15 100) r1
  else if sub == str "adjacent_key" then generate_typo correct (mkRat 1 1) r1
  else if sub == str "missing_space" then remove_space correct r1
  else generate_typo correct (mkRat 15 100) r1

/-- `SingleCommandGenerator._generate_incorrect` (lines 226-257): when the
entry carries predefined errors, a draw below 0.6 picks one of them expanded
under the same binding; otherwise dispatch on the error type. -/
def single_generate_incorrect (correct : List Char) (errors : List (List Char))
    (error_type shell : List Char) (binding : List (List Char × List Char))
    (r : Rng) : List Char × Rng :=
  let dispatch : Rng → List Char × Rng := fun rd =>
    if error_type == str "typo" then single_typo_error correct rd
    else if error_type == str "wrong_flag" then single_flag_error correct shell rd
    else if error_type == str "permission" then single_permission_error correct shell rd
    else if error_type == str "path" then single_path_error correct rd
    else if error_type == str "syntax" then single_syntax_error correct shell rd
    else generate_typo correct (mkRat 15 100) rd
  if errors ≠ [] then
    let (q, r1) := randFloat r
    if q < mkRat 6 10 then
      let (errT, r2) := choose r1 errors
      (expand_template errT binding, r2)
    else dispatch r1
  else dispatch r

/-- The single-character retry loop inside
`SingleCommandGenerator._create_example_from_entry` (lines 182-193): while the
candidate classifies as single-character, escalate through space removal, flag
error, path error. -/
def single_retry_loop (correct shell : List Char) :
    Nat → List Char → Rng → List Char × Rng
  | 0, inc, r => (inc, r)
  | f + 1, inc, r =>
    if is_single_char_correction inc correct then
      let (i1, r1) := remove_space correct r
      let (i2, r2) :=
        if i1 = correct ∨ is_single_char_correction i1 correct then
          single_flag_error correct shell r1
        else (i1, r1)
      let (i3, r3) :=
        if i2 = correct ∨ is_single_char_correction i2 correct then
          single_path_error correct r2
        else (i2, r2)
      single_retry_loop correct shell f i3 r3
    else (inc, r)

/-- `SingleCommandGenerator._create_example_from_entry` (lines 155-207). -/
def single_create_example (tbl : VarTable) (shell category : List Char)
    (entry : ToolCmd) (r : Rng) : Option TrainingExample × Rng :=
  if entry.correct = [] then (none, r)
  else
    let (binding, r1) := extract_variables tbl entry.correct r
    let correct_cmd := expand_template entry.correct binding
    let (error_type, r2) := single_select_error_type r1
    let (incorrect_cmd, r3) :=
      single_generate_incorrect correct_cmd entry.errors error_type shell binding r2
    let (incorrect2, r4) :=
      if incorrect_cmd = correct_cmd then generate_typo correct_cmd (mkRat 1 1) r3
      else (incorrect_cmd, r3)
    let (incorrect3, r5) := single_retry_loop correct_cmd shell 3 incorrect2 r4
    if pyStrip incorrect3 == pyStrip correct_cmd then (none, r5)
    else
      (some { shell := shell, incorrect_command := incorrect3,
              correct_command := correct_cmd, category := category,
              error_type := error_type, source := str "template",
              metadata := [(str "template", entry.correct)] }, r5)

/-- The entry pool built by `SingleCommandGenerator._generate_for_shell`
(lines 133-141): all `(category, entry)` pairs of the shell's template, in
`CATEGORIES` order. -/
def single_all_entries (templates : SingleTemplates) (shell : List Char) :
    List (List Char × ToolCmd) :=
  let template := match (templates : List _).find? (fun kv => kv.1 == shell) with
    | some kv => kv.2
    | none => []
  CATEGORIES.foldr
    (fun cat acc =>
      (match template.find? (fun kv => kv.1 == cat) with
       | some kv => kv.2.map (fun e => (cat, e))
       | none => []) ++ acc)
    []

/-- `SingleCommandGenerator._generate_for_shell` (lines 128-153). -/
def single_gen_for_shell (templates : SingleTemplates) (tbl : VarTable)
    (shell : List Char) : Nat → Rng → List TrainingExample × Rng
  | 0, r => ([], r)
  | n + 1, r =>
    let all_entries := single_all_entries templates shell
    if all_entries = [] then ([], r)
    else
      let (ce, r1) := choose r all_entries
      let (exOpt, r2) := single_create_example tbl shell ce.1 ce.2 r1
      let (rest, r3) := single_gen_for_shell templates tbl shell n r2
      (match exOpt with | some ex => ex :: rest | none => rest, r3)

/-- The deficit-recovery loop of `SingleCommandGenerator.generate`
(lines 90-102). -/
def single_retry_rounds (templates : SingleTemplates) (tbl : VarTable) (count : Nat) :
    Nat → List TrainingExample → Rng → List TrainingExample × Rng
  | 0, exs, r => (exs, r)
  | f + 1, exs, r =>
    if exs.length < count then
      let deficit := count - exs.length
      let (extra, r') := single_gen_for_shell templates tbl (str "bash") (deficit * 2) r
      single_retry_rounds templates tbl count f (exs ++ extra.filter okPair) r'
    else (exs, r)

/-- `SingleCommandGenerator.generate` (lines 61-126): per-shell generation
(skipping shells with no loaded template), null filter, deficit retries,
shuffle, single-character cap, truncate to `count`. -/
def single_generate (templates : SingleTemplates) (tbl : VarTable) (count : Nat)
    (r : Rng) : List TrainingExample × Rng :=
  let counts := shell_counts count
  let (examples, r1) := counts.foldl
    (fun (acc : List TrainingExample × Rng) sc =>
      if ((templates : List _).find? (fun kv => kv.1 == sc.1)).isSome then
        let (es, r') := single_gen_for_shell templates tbl sc.1 sc.2 acc.2
        (acc.1 ++ es, r')
      else acc)
    ([], r)
  let filtered := examples.filter okPair
  let (pooled, r2) := single_retry_rounds templates tbl count 3 filtered r1
  let (shuffled, r3) := shuffleModel pooled r2
  let (capped, r4) := capSingleChar count shuffled r3
  (capped.take count, r4)

/-! ## NaturalLanguageGenerator (natural_lang_gen.py)

The literal `NL_PATTERNS`, `GIT_PATTERNS`, `DOCKER_PATTERNS`, `K8S_PATTERNS`,
`WORKFLOW_PATTERNS` and `DEBUG_PATTERNS` tables are static catalog data,
supplied as a parameter. -/

/-- The four per-type pools of one shell's `NL_PATTERNS` entry. -/
structure NLPools where
  imperative : List (List Char × List Char)
  question : List (List Char × List Char)
  mixed : List (List Char × List Char)
  intent : List (List Char × List Char)
deriving Inhabited

/-- The whole natural-language catalog. -/
structure NLData where
  perShell : List (List Char × NLPools)
  git : List (List Char × List Char)
  docker : List (List Char × List Char)
  k8s : List (List Char × List Char)
  workflow : List (List Char × List Char)
  debug : List (List Char × List Char)

/-- `NL_PATTERNS.get(shell, NL_PATTERNS.get("bash", {}))` (line 422). -/
def lookupNL (m : List (List Char × NLPools)) (shell : List Char) : NLPools :=
  match m.find? (fun kv => kv.1 == shell) with
  | some kv => kv.2
  | none =>
    match m.find? (fun kv => kv.1 == str "bash") with
    | some kv => kv.2
    | none => default

/-- `NaturalLanguageGenerator._select_nl_type` (lines 471-475) over
`NL_TYPE_DISTRIBUTION = {imperative 0.40, question 0.20, mixed 0.25, intent 0.15}`. -/
def nl_select_type (r : Rng) : List Char × Rng :=
  weightedChoice r [str "imperative", str "question", str "mixed", str "intent"]
    [mkRat 40 100, mkRat 20 100, mkRat 25 100, mkRat 15 100]

/-- The pool the selected type names (`patterns.get(nl_type, [])`, line 428). -/
def poolFor (pools : NLPools) (t : List Char) : List (List Char × List Char) :=
  if t == str "imperative" then pools.imperative
  else if t == str "question" then pools.question
  else if t == str "mixed" then pools.mixed
  else if t == str "intent" then pools.intent
  else []

/-- `NaturalLanguageGenerator._add_nl_variation` (lines 491-523): one choice
among the type's surface variations, applied to the natural-language side. -/
def add_nl_variation (text : List Char) (nl_type : List Char) (r : Rng) :
    List Char × Rng :=
  if nl_type == str "imperative" then
    let (i, r') := randNat r 6
    (if i = 0 then text
     else if i = 1 then str "please " ++ text
     else if i = 2 then str "can you " ++ text
     else if i = 3 then text ++ str " please"
     else if i = 4 then str "I want to " ++ text
     else str "I need to " ++ text, r')
  else if nl_type == str "question" then
    let (i, r') := randNat r 4
    (if i = 0 then text
     else if i = 1 then text ++ str "?"
     else if i = 2 then str "can you tell me " ++ text
     else str "I want to know " ++ text, r')
  else if nl_type == str "mixed" then
    let (i, r') := randNat r 3
    (if i = 0 then text
     else if i = 1 then str "do a " ++ text
     else str "run " ++ text, r')
  else if nl_type == str "intent" then
    let (i, r') := randNat r 4
    (if i = 0 then text
     else if i = 1 then str "I want to " ++ text
     else if i = 2 then str "help me " ++ text
     else str "please " ++ text, r')
  else
    let (_, r') := randNat r 1
    (text, r')

/-- `NaturalLanguageGenerator._generate_for_shell` (lines 419-469): pick a type,
independently roll the five extra pools (git 0.25, docker 0.15, k8s 0.20,
workflow 0.15, debug 0.10) for imperative/intent draws on bash/zsh/powershell,
each roll prepending its whole pool; fall back to the imperative pool when
empty; then choose a pair, extract one binding from both sides joined by a
space, expand both sides with it, and vary the natural-language side. -/
def nl_gen_for_shell (data : NLData) (tbl : VarTable) (shell : List Char) :
    Nat → Rng → List TrainingExample × Rng
  | 0, r => ([], r)
  | n + 1, r =>
    let pools := lookupNL data.perShell shell
    let (t, r1) := nl_select_type r
    let tp0 := poolFor pools t
    let (tp1, r2) :=
      if (t == str "imperative" ∨ t == str "intent") ∧
          (shell == str "bash" ∨ shell == str "zsh" ∨ shell == str "powershell") then
        let (q1, ra) := randFloat r1
        let tpA := if q1 < mkRat 25 100 then data.git ++ tp0 else tp0
        let (q2, rb) := randFloat ra
        let tpB := if q2 < mkRat 15 100 then data.docker ++ tpA else tpA
        let (q3, rc) := randFloat rb
        let tpC := if q3 < mkRat 20 100 then data.k8s ++ tpB else tpB
        let (q4, rd) := randFloat rc
        let tpD := if q4 < mkRat 15 100 then data.workflow ++ tpC else tpC
        let (q5, rEnd) := randFloat rd
        (if q5 < mkRat 10 100 then data.debug ++ tpD else tpD, rEnd)
      else (tp0, r1)
    let tp2 := if tp1 = [] then pools.imperative else tp1
    if tp2 = [] then nl_gen_for_shell data tbl shell n r2
    else
      let (pair, r3) := choose r2 tp2
      let (binding, r4) := extract_variables tbl (pair.1 ++ [' '] ++ pair.2) r3
      let nl_text := expand_template pair.1 binding
      let command := expand_template pair.2 binding
      let (nl_text2, r5) := add_nl_variation nl_text t r4
      let ex : TrainingExample :=
        { shell := shell, incorrect_command := nl_text2, correct_command := command,
          category := str "natural_language", error_type := t,
          source := str "nl_pattern", metadata := [] }
      let (rest, r6) := nl_gen_for_shell data tbl shell n r5
      (ex :: rest, r6)

/-- `NaturalLanguageGenerator.generate` (lines 392-417): per-shell generation,
null filter, shuffle, truncate to `count` (no deficit retries, no cap). -/
def nl_generate (data : NLData) (tbl : VarTable) (count : Nat) (r : Rng) :
    List TrainingExample × Rng :=
  let counts := shell_counts count
  let (examples, r1) := counts.foldl
    (fun (acc : List TrainingExample × Rng) sc =>
      let (es, r') := nl_gen_for_shell data tbl sc.1 sc.2 acc.2
      (acc.1 ++ es, r'))
    ([], r)
  let filtered := examples.filter okPair
  let (shuffled, r2) := shuffleModel filtered r1
  (shuffled.take count, r2)

/-! ## Basic facts about the string primitives -/

theorem leadsWith_iff {p t : List Char} : leadsWith p t = true ↔ p <+: t := by
  induction p generalizing t with
  | nil => simp [leadsWith]
  | cons a as ih =>
    cases t with
    | nil => simp [leadsWith]
    | cons b bs => simp [leadsWith, ih]

theorem hasSub_iff {p t : List Char} : hasSub p t = true ↔ p <:+: t := by
  induction t with
  | nil => simp [hasSub, List.isEmpty_iff]
  | cons c cs ih => simp [hasSub, leadsWith_iff, ih, List.infix_cons_iff]

theorem eq_append_drop_of_leadsWith {p t : List Char} (h : leadsWith p t = true) :
    t = p ++ t.drop p.length := by
  obtain ⟨rest, hr⟩ := leadsWith_iff.mp h
  subst hr
  rw [List.drop_left]

theorem leadsWith_head {x : Char} {xs t : List Char} (h : leadsWith (x :: xs) t = true) :
    ∃ t', t = x :: t' := by
  cases t with
  | nil => simp [leadsWith] at h
  | cons y ys =>
    simp only [leadsWith, Bool.and_eq_true, beq_iff_eq] at h
    exact ⟨ys, by rw [h.1]⟩

theorem drop_head_mem {α : Type} : ∀ (l v : List α) (i : Nat), i < l.length →
    ∃ x l', List.drop i (l ++ v) = x :: l' ∧ x ∈ l := by
  intro l
  induction l with
  | nil => intro v i h; simp at h
  | cons a l' ih =>
    intro v i h
    cases i with
    | zero => exact ⟨a, l' ++ v, by simp, by simp⟩
    | succ j =>
      obtain ⟨x, l'', hx, hm⟩ := ih v j (by simpa using h)
      exact ⟨x, l'', by simpa using hx, by simp [hm]⟩

theorem twoPre {α : Type} : ∀ (L l₁ l₂ : List α), l₁ <+: L → l₂ <+: L →
    l₁ <+: l₂ ∨ l₂ <+: l₁ := by
  intro L
  induction L with
  | nil =>
    intro l₁ l₂ h1 h2
    simp only [List.prefix_nil] at h1 h2
    subst h1; subst h2
    simp
  | cons c cs ih =>
    intro l₁ l₂ h1 h2
    cases l₁ with
    | nil => left; simp
    | cons a as =>
      cases l₂ with
      | nil => right; simp
      | cons b bs =>
        rw [List.cons_prefix_cons] at h1 h2
        obtain ⟨rfl, h1⟩ := h1
        obtain ⟨rfl, h2⟩ := h2
        simpa [List.cons_prefix_cons] using ih as bs h1 h2

/-! ## Placeholders and the persistence of foreign placeholders

A placeholder text `{name}` with a non-empty word-character `name` cannot
overlap an occurrence of `{other}` for a different word `other`, so Python's
`replace` of `{other}` can never destroy an occurrence of `{name}`. -/

/-- A valid placeholder name: non-empty, all word characters. -/
def goodName (w : List Char) : Prop := w ≠ [] ∧ ∀ c ∈ w, wordChar c = true

instance goodNameDec (w : List Char) : Decidable (goodName w) :=
  decidable_of_iff (w ≠ [] ∧ ∀ c ∈ w, wordChar c = true) Iff.rfl

theorem braceOf_ne_nil (w : List Char) : braceOf w ≠ [] := by simp [braceOf]

theorem wordEnd_inj : ∀ (w w' : List Char), (∀ c ∈ w, wordChar c = true) →
    (∀ c ∈ w', wordChar c = true) → w ++ ['}'] <+: w' ++ ['}'] → w = w' := by
  intro w
  induction w with
  | nil =>
    intro w' _ hw' h
    cases w' with
    | nil => rfl
    | cons c w'' =>
      exfalso
      obtain ⟨t, ht⟩ := h
      simp only [List.nil_append, List.cons_append] at ht
      have hc : '}' = c := by injection ht
      have : wordChar '}' = true := hc ▸ hw' c (by simp)
      exact absurd this (by decide)
  | cons a wa ih =>
    intro w' hw hw' h
    cases w' with
    | nil =>
      exfalso
      obtain ⟨t, ht⟩ := h
      simp only [List.cons_append, List.nil_append] at ht
      have hc : a = '}' := by injection ht
      have : wordChar '}' = true := hc ▸ hw a (by simp)
      exact absurd this (by decide)
    | cons b w'b =>
      rw [List.cons_append, List.cons_append, List.cons_prefix_cons] at h
      obtain ⟨rfl, h2⟩ := h
      rw [ih w'b (fun c hc => hw c (by simp [hc])) (fun c hc => hw' c (by simp [hc])) h2]

theorem braceOf_le_inj {w w' : List Char} (hw : ∀ c ∈ w, wordChar c = true)
    (hw' : ∀ c ∈ w', wordChar c = true) (h : braceOf w <+: braceOf w') : w = w' := by
  rw [braceOf, braceOf, List.cons_prefix_cons] at h
  exact wordEnd_inj w w' hw hw' h.2

/-- Dissection of an occurrence of `{w'}` inside `{w} ++ rest` for distinct
words: the occurrence must lie entirely inside `rest`. -/
theorem infix_drop_of_ne {w w' rest : List Char}
    (hw : ∀ c ∈ w, wordChar c = true) (hw' : ∀ c ∈ w', wordChar c = true)
    (hne : w ≠ w') (h : braceOf w' <:+: braceOf w ++ rest) :
    braceOf w' <:+: rest := by
  obtain ⟨s, t, hst⟩ := h
  rw [List.append_assoc] at hst
  rcases List.append_eq_append_iff.mp hst with ⟨a', hc, hb⟩ | ⟨c', hs, hd⟩
  · -- braceOf w = s ++ a', braceOf w' ++ t = a' ++ rest
    cases a' with
    | nil =>
      simp only [List.nil_append] at hb
      exact ⟨[], t, by simpa using hb⟩
    | cons d a'' =>
      exfalso
      cases s with
      | nil =>
        simp only [List.nil_append] at hc
        -- braceOf w' and braceOf w are both prefixes of braceOf w' ++ t
        have hp1 : braceOf w' <+: braceOf w' ++ t := List.prefix_append _ _
        have hp2 : braceOf w <+: braceOf w' ++ t := by
          rw [hb, ← hc]
          exact List.prefix_append _ _
        rcases twoPre _ _ _ hp2 hp1 with hle | hle
        · exact hne (braceOf_le_inj hw hw' hle)
        · exact hne (braceOf_le_inj hw hw' (braceOf_le_inj hw' hw hle ▸ List.prefix_refl _))
      | cons e s' =>
        rw [braceOf] at hc
        simp only [List.cons_append] at hc
        have htail : w ++ ['}'] = s' ++ (d :: a'') := by injection hc
        have hd_mem : d ∈ w ++ ['}'] := by
          rw [htail]
          exact List.mem_append_right _ (by simp)
        have hd_eq : '{' = d := by
          rw [braceOf] at hb
          simp only [List.cons_append] at hb
          injection hb
        rcases List.mem_append.mp hd_mem with hm | hm
        · have := hw d hm
          rw [← hd_eq] at this
          exact absurd this (by decide)
        · simp only [List.mem_singleton] at hm
          rw [← hd_eq] at hm
          exact absurd hm (by decide)
  · -- s = braceOf w ++ c', rest = c' ++ (braceOf w' ++ t)
    exact ⟨c', t, by rw [hd, List.append_assoc]⟩

/-- Skip lemma: when no occurrence of `pat` starts inside the region `u`,
`replace` copies `u` verbatim and continues on `v`. -/
theorem replaceAllF_skip (pat repl : List Char) :
    ∀ (u v : List Char) (fuel : Nat), (u ++ v).length ≤ fuel →
      (∀ i, i < u.length → ¬ leadsWith pat (List.drop i (u ++ v)) = true) →
      replaceAllF pat repl fuel (u ++ v) =
        u ++ replaceAllF pat repl (fuel - u.length) v := by
  intro u
  induction u with
  | nil => intro v fuel _ _; simp
  | cons c u' ih =>
    intro v fuel hf hno
    cases fuel with
    | zero => simp at hf
    | succ n =>
      have h0 := hno 0 (by simp)
      simp only [List.drop_zero, List.cons_append] at h0
      rw [List.cons_append]
      simp only [replaceAllF]
      rw [if_neg (fun hcon => h0 hcon.2)]
      have hrec := ih v n (by simpa using Nat.le_of_succ_le_succ hf)
        (fun i hi => by
          have := hno (i + 1) (by simpa using Nat.succ_lt_succ hi)
          simpa using this)
      rw [hrec]
      simp [Nat.succ_sub_succ]

/-- Persistence: replacing `{w}` everywhere cannot destroy an occurrence of
`{w'}` for a different non-empty word `w'`. -/
theorem replaceAllF_keeps {w w' repl : List Char}
    (hw : ∀ c ∈ w, wordChar c = true) (hgw' : goodName w') (hne : w ≠ w') :
    ∀ (fuel : Nat) (t : List Char), t.length ≤ fuel →
      braceOf w' <:+: t → braceOf w' <:+: replaceAllF (braceOf w) repl fuel t := by
  obtain ⟨hw'ne, hw'⟩ := hgw'
  intro fuel
  induction fuel with
  | zero =>
    intro t ht hin
    have : t = [] := List.eq_nil_of_length_eq_zero (Nat.le_zero.mp ht)
    subst this
    simp only [List.infix_nil] at hin
    exact absurd hin (braceOf_ne_nil w')
  | succ n ih =>
    intro t ht hin
    cases t with
    | nil =>
      simp only [List.infix_nil] at hin
      exact absurd hin (braceOf_ne_nil w')
    | cons c cs =>
      by_cases hp : leadsWith (braceOf w) (c :: cs) = true
      · -- the head is an occurrence of {w}; {w'} lies beyond it
        have hdecomp := eq_append_drop_of_leadsWith hp
        have hrest : cs.drop ((braceOf w).length - 1) = (c :: cs).drop (braceOf w).length := by
          rw [braceOf]
          simp
        simp only [replaceAllF]
        rw [if_pos ⟨braceOf_ne_nil w, hp⟩, hrest]
        have hinrest : braceOf w' <:+: (c :: cs).drop (braceOf w).length :=
          infix_drop_of_ne hw hw' hne (hdecomp ▸ hin)
        have hlen : ((c :: cs).drop (braceOf w).length).length ≤ n := by
          simp only [List.length_drop, braceOf, List.length_cons, List.length_append]
          simp only [List.length_cons] at ht
          omega
        obtain ⟨s₀, t₀, h₀⟩ := ih _ hlen hinrest
        exact ⟨repl ++ s₀, t₀, by rw [← h₀]; simp⟩
      · obtain ⟨s, t2, hst⟩ := hin
        cases s with
        | nil =>
          -- the occurrence is at the head; no {w} occurrence can start inside it
          simp only [List.nil_append] at hst
          have hskip := replaceAllF_skip (braceOf w) repl (braceOf w') t2 (n + 1)
            (by rw [hst]; exact ht)
            (fun i hi => by
              intro hlead
              cases Nat.eq_zero_or_pos i with
              | inl h0 =>
                subst h0
                rw [List.drop_zero, hst] at hlead
                exact hp hlead
              | inr hpos =>
                -- index i ≥ 1 inside {w'}: the character there is a word char or
                -- the closing brace, never the opening brace {w} starts with
                have hbrace : braceOf w' ++ t2 = '{' :: ((w' ++ ['}']) ++ t2) := by
                  rw [braceOf]; simp
                have hi' : i - 1 < (w' ++ ['}']).length := by
                  have hlen : (braceOf w').length = (w' ++ ['}']).length + 1 := rfl
                  omega
                obtain ⟨x, l', hx, hmem⟩ := drop_head_mem (w' ++ ['}']) t2 (i - 1) hi'
                have hdropped : List.drop i (braceOf w' ++ t2) = x :: l' := by
                  rw [hbrace]
                  have : i = (i - 1) + 1 := by omega
                  rw [this, List.drop_succ_cons, hx]
                rw [hdropped] at hlead
                have hx_brace : x = '{' := by
                  rw [braceOf] at hlead
                  obtain ⟨t', ht'⟩ := leadsWith_head hlead
                  injection ht'
                rcases List.mem_append.mp hmem with hm | hm
                · have := hw' x hm
                  rw [hx_brace] at this
                  exact absurd this (by decide)
                · simp only [List.mem_singleton] at hm
                  rw [hx_brace] at hm
                  exact absurd hm (by decide))
          rw [← hst, hskip]
          exact ⟨[], replaceAllF (braceOf w) repl (n + 1 - (braceOf w').length) t2,
            by simp⟩
        | cons d s' =>
          simp only [List.cons_append] at hst
          have hd : d = c := by injection hst
          have hcs : s' ++ braceOf w' ++ t2 = cs := by injection hst
          simp only [replaceAllF]
          rw [if_neg (fun hcon => hp hcon.2)]
          obtain ⟨s₀, t₀, h₀⟩ := ih cs (by simpa using Nat.le_of_succ_le_succ ht)
            ⟨s', t2, hcs⟩
          exact ⟨c :: s₀, t₀, by rw [← h₀]; simp⟩

/-- Persistence for `replaceAll` itself. -/
theorem replaceAll_keeps {w w' repl t : List Char}
    (hw : ∀ c ∈ w, wordChar c = true) (hgw' : goodName w') (hne : w ≠ w')
    (hin : braceOf w' <:+: t) : braceOf w' <:+: replaceAll (braceOf w) repl t :=
  replaceAllF_keeps hw hgw' hne t.length t le_rfl hin

/-- Persistence through `expand_template`: a placeholder whose word name is
bound by no binding entry survives every replacement pass verbatim. -/
theorem expand_template_keeps {name : List Char} (hgn : goodName name) :
    ∀ (binding : List (List Char × List Char)) (t : List Char),
      (∀ kv ∈ binding, goodName kv.1 ∧ kv.1 ≠ name) →
      braceOf name <:+: t → braceOf name <:+: expand_template t binding := by
  intro binding
  induction binding with
  | nil => intro t _ h; simpa [expand_template] using h
  | cons kv rest ih =>
    intro t hb hin
    have hstep : expand_template t (kv :: rest) =
        expand_template (replaceAll (braceOf kv.1) kv.2 t) rest := by
      simp [expand_template]
    rw [hstep]
    have hkv := hb kv (by simp)
    exact ih _ (fun x hx => hb x (by simp [hx]))
      (replaceAll_keeps hkv.1.2 hgn (fun he => hkv.2 he) hin)

/-! ## Sequential versus simultaneous expansion (for the `expand` contract) -/

theorem expandSpecF_nil : ∀ (fuel : Nat) (t : List Char), expandSpecF [] fuel t = t := by
  intro fuel
  induction fuel with
  | zero => intro t; cases t <;> simp [expandSpecF]
  | succ n ih =>
    intro t
    cases t with
    | nil => simp [expandSpecF]
    | cons c cs => simp [expandSpecF, List.find?, ih]

/-- On the empty binding both expansions are the identity. -/
theorem expandSpec_nil (t : List Char) : expandSpec [] t = t := expandSpecF_nil _ t

theorem expand_template_nil (t : List Char) : expand_template t [] = t := rfl

/-- On a single-entry binding the code's sequential `expand_template` computes
exactly the spec's simultaneous non-recursive substitution. -/
theorem expandSpecF_single (k v : List Char) :
    ∀ (fuel : Nat) (t : List Char),
      expandSpecF [(k, v)] fuel t = replaceAllF (braceOf k) v fuel t := by
  intro fuel
  induction fuel with
  | zero => intro t; cases t <;> simp [expandSpecF, replaceAllF]
  | succ n ih =>
    intro t
    cases t with
    | nil => simp [expandSpecF, replaceAllF]
    | cons c cs =>
      by_cases hp : leadsWith (braceOf k) (c :: cs) = true
      · simp only [expandSpecF, replaceAllF, List.find?, hp]
        rw [if_pos ⟨braceOf_ne_nil k, trivial⟩]
        have hdrop : (c :: cs).drop (braceOf k).length =
            cs.drop ((braceOf k).length - 1) := by
          rw [braceOf]; simp
        rw [hdrop, ih]
      · simp only [expandSpecF, replaceAllF, List.find?, hp]
        rw [if_neg (fun hcon => by simpa using hcon.2)]
        simp [ih]

theorem expand_template_single (t k v : List Char) :
    expand_template t [(k, v)] = expandSpec [(k, v)] t := by
  rw [expandSpec, expandSpecF_single]
  rfl

/-! ## Whitespace splitting: tokens are clean, and joining inverts splitting -/

/-- A clean token: non-empty with no whitespace. -/
def cleanTok (w : List Char) : Prop := w ≠ [] ∧ ∀ c ∈ w, pySpace c = false

theorem length_dropWhile_le (p : Char → Bool) :
    ∀ l : List Char, (l.dropWhile p).length ≤ l.length := by
  intro l
  induction l with
  | nil => simp
  | cons c cs ih =>
    by_cases hc : p c = true
    · rw [List.dropWhile_cons_of_pos hc]
      exact Nat.le_trans ih (by simp)
    · rw [List.dropWhile_cons_of_neg (by simpa using hc)]

theorem pySplitF_good : ∀ (fuel : Nat) (t : List Char), t.length ≤ fuel →
    ∀ w ∈ pySplitF fuel t, cleanTok w := by
  intro fuel
  induction fuel with
  | zero =>
    intro t ht w hw
    have : t = [] := List.eq_nil_of_length_eq_zero (Nat.le_zero.mp ht)
    subst this
    simp [pySplitF] at hw
  | succ n ih =>
    intro t ht w hw
    cases t with
    | nil => simp [pySplitF] at hw
    | cons c cs =>
      by_cases hc : pySpace c = true
      · rw [pySplitF, if_pos hc] at hw
        exact ih cs (by simpa using Nat.le_of_succ_le_succ ht) w hw
      · rw [pySplitF, if_neg hc] at hw
        rcases List.mem_cons.mp hw with hw | hw
        · subst hw
          refine ⟨by simp, ?_⟩
          intro x hx
          rcases List.mem_cons.mp hx with hx | hx
          · subst hx; simpa using hc
          · have := List.mem_takeWhile_imp hx
            simpa using this
        · refine ih _ ?_ w hw
          have hd := length_dropWhile_le (fun d => !pySpace d) cs
          simp only [List.length_cons] at ht
          omega

theorem pySplit_good (t : List Char) : ∀ w ∈ pySplit t, cleanTok w :=
  pySplitF_good t.length t le_rfl

theorem pySplitF_congr : ∀ {f₁ f₂ : Nat} {t : List Char}, t.length ≤ f₁ →
    t.length ≤ f₂ → pySplitF f₁ t = pySplitF f₂ t := by
  intro f₁
  induction f₁ with
  | zero =>
    intro f₂ t h1 _
    have : t = [] := List.eq_nil_of_length_eq_zero (Nat.le_zero.mp h1)
    subst this
    cases f₂ <;> simp [pySplitF]
  | succ n ih =>
    intro f₂ t h1 h2
    cases t with
    | nil => cases f₂ <;> simp [pySplitF]
    | cons c cs =>
      cases f₂ with
      | zero => simp at h2
      | succ m =>
        simp only [pySplitF]
        have hcs : cs.length ≤ n := by simpa using Nat.le_of_succ_le_succ h1
        have hcs' : cs.length ≤ m := by simpa using Nat.le_of_succ_le_succ h2
        have hd := length_dropWhile_le (fun d => !pySpace d) cs
        by_cases hc : pySpace c = true
        · rw [if_pos hc, if_pos hc]
          exact ih hcs hcs'
        · rw [if_neg hc, if_neg hc, ih (Nat.le_trans hd hcs) (Nat.le_trans hd hcs')]

/-- Splitting a single clean token yields exactly that token. -/
theorem pySplit_single {p : List Char} (hp : cleanTok p) : pySplit p = [p] := by
  obtain ⟨hne, hclean⟩ := hp
  cases p with
  | nil => exact absurd rfl hne
  | cons c rest =>
    have hc : ¬ pySpace c = true := by simp [hclean c (by simp)]
    have htake : rest.takeWhile (fun d => !pySpace d) = rest :=
      List.takeWhile_eq_self_iff.mpr (fun x hx => by simp [hclean x (by simp [hx])])
    have hdrop : rest.dropWhile (fun d => !pySpace d) = [] :=
      List.dropWhile_eq_nil_iff.mpr (fun x hx => by simp [hclean x (by simp [hx])])
    rw [pySplit]
    simp only [List.length_cons, pySplitF, if_neg hc, htake, hdrop]

theorem takeWhile_middle {p : Char → Bool} :
    ∀ (l : List Char) (a : Char) (v : List Char), (∀ x ∈ l, p x = true) → p a = false →
      (l ++ a :: v).takeWhile p = l := by
  intro l
  induction l with
  | nil => intro a v _ ha; simp [List.takeWhile, ha]
  | cons c l' ih =>
    intro a v hl ha
    have hc : p c = true := hl c (by simp)
    rw [List.cons_append, List.takeWhile_cons_of_pos hc,
      ih a v (fun x hx => hl x (by simp [hx])) ha]

theorem dropWhile_middle {p : Char → Bool} :
    ∀ (l : List Char) (a : Char) (v : List Char), (∀ x ∈ l, p x = true) → p a = false →
      (l ++ a :: v).dropWhile p = a :: v := by
  intro l
  induction l with
  | nil => intro a v _ ha; simp [List.dropWhile, ha]
  | cons c l' ih =>
    intro a v hl ha
    have hc : p c = true := hl c (by simp)
    rw [List.cons_append, List.dropWhile_cons_of_pos hc]
    exact ih a v (fun x hx => hl x (by simp [hx])) ha

/-- Splitting a clean token followed by a space continues with the rest. -/
theorem pySplit_append_space {p : List Char} (hp : cleanTok p) (v : List Char) :
    pySplit (p ++ ' ' :: v) = p :: pySplit v := by
  obtain ⟨hne, hclean⟩ := hp
  cases p with
  | nil => exact absurd rfl hne
  | cons c rest =>
    have hc : ¬ pySpace c = true := by simp [hclean c (by simp)]
    have hall : ∀ x ∈ rest, (fun d => !pySpace d) x = true :=
      fun x hx => by simp [hclean x (by simp [hx])]
    have hspace : (fun d => !pySpace d) ' ' = false := by simp [pySpace]
    have htake := takeWhile_middle rest ' ' v hall hspace
    have hdrop := dropWhile_middle rest ' ' v hall hspace
    have hlen : ((c :: rest) ++ ' ' :: v).length = rest.length + v.length + 2 := by
      simp
      omega
    rw [pySplit, hlen]
    have hstep : (c :: rest) ++ ' ' :: v = c :: (rest ++ ' ' :: v) := by simp
    rw [hstep]
    simp only [pySplitF, if_neg hc, htake, hdrop]
    have hsp : pySpace ' ' = true := by decide
    have : rest.length + v.length + 1 = (v.length + rest.length) + 1 := by omega
    simp only [pySplitF, if_pos hsp]
    rw [pySplitF_congr (by omega) (le_refl v.length)]
    rfl

/-- Joining clean tokens with single spaces and re-splitting gives them back. -/
theorem pySplit_pyJoin : ∀ (parts : List (List Char)),
    (∀ p ∈ parts, cleanTok p) → pySplit (pyJoin [' '] parts) = parts := by
  intro parts
  induction parts with
  | nil => intro _; simp [pyJoin, pySplit, pySplitF]
  | cons p rest ih =>
    intro hgood
    cases rest with
    | nil => simpa [pyJoin] using pySplit_single (hgood p (by simp))
    | cons q rest' =>
      have hjoin : pyJoin [' '] (p :: q :: rest') =
          p ++ ' ' :: pyJoin [' '] (q :: rest') := by
        rw [pyJoin]
        simp
      rw [hjoin, pySplit_append_space (hgood p (by simp)),
        ih (fun x hx => hgood x (by simp [hx]))]

/-! ## The single-character-correction classifier versus its specification -/

/-- Two strings differ in exactly one position (and have equal length):
a common part, one differing character, a common tail. -/
def OneSubst (x y : List Char) : Prop :=
  ∃ p a b s, a ≠ b ∧ x = p ++ a :: s ∧ y = p ++ b :: s

/-- The shorter string equals the longer with exactly one character removed. -/
def OneDrop (longer shorter : List Char) : Prop :=
  ∃ p c s, longer = p ++ c :: s ∧ shorter = p ++ s

/-- The specification of the quality gate's classifier, following the spec's
words: after trimming, equal length with exactly one differing position, or
lengths off by one with the shorter equal to the longer with one character
removed at some position. -/
def SingleCharSpec (a b : List Char) : Prop :=
  OneSubst (pyStrip a) (pyStrip b) ∨ OneDrop (pyStrip a) (pyStrip b) ∨
    OneDrop (pyStrip b) (pyStrip a)

theorem OneSubst_length {x y : List Char} (h : OneSubst x y) : x.length = y.length := by
  obtain ⟨p, a, b, s, _, hx, hy⟩ := h
  subst hx; subst hy
  simp

theorem OneDrop_length {x y : List Char} (h : OneDrop x y) : x.length = y.length + 1 := by
  obtain ⟨p, c, s, hx, hy⟩ := h
  subst hx; subst hy
  simp
  omega

theorem countDiff_self (x : List Char) : countDiff x x = 0 := by
  induction x with
  | nil => simp [countDiff]
  | cons c cs ih =>
    simp only [countDiff, List.zip_cons_cons, List.countP_cons] at ih ⊢
    simp [ih]

theorem countDiff_zero_iff : ∀ {x y : List Char}, x.length = y.length →
    (countDiff x y = 0 ↔ x = y) := by
  intro x
  induction x with
  | nil =>
    intro y hl
    have : y = [] := List.eq_nil_of_length_eq_zero hl.symm
    subst this
    simp [countDiff]
  | cons c x' ih =>
    intro y hl
    cases y with
    | nil => simp at hl
    | cons d y' =>
      simp only [countDiff, List.zip_cons_cons, List.countP_cons] at ih ⊢
      constructor
      · intro h
        have hcd : ¬ (c != d) = true := by
          by_cases hcd : (c != d) = true
          · rw [if_pos hcd] at h; omega
          · exact hcd
        have hc : c = d := by simpa using hcd
        rw [if_neg hcd, Nat.add_zero] at h
        have := (ih (by simpa using hl)).mp h
        rw [hc, this]
      · intro h
        injection h with h1 h2
        subst h1; subst h2
        have h0 := countDiff_self x'
        simp only [countDiff] at h0
        simp [h0]

theorem countDiff_one_iff : ∀ {x y : List Char}, x.length = y.length →
    (countDiff x y = 1 ↔ OneSubst x y) := by
  intro x
  induction x with
  | nil =>
    intro y hl
    have : y = [] := List.eq_nil_of_length_eq_zero hl.symm
    subst this
    simp only [countDiff, List.zip_nil_right, List.countP_nil]
    constructor
    · omega
    · intro ⟨p, a, b, s, _, hx, _⟩
      exact absurd hx.symm (by simp)
  | cons c x' ih =>
    intro y hl
    cases y with
    | nil => simp at hl
    | cons d y' =>
      have hl' : x'.length = y'.length := by simpa using hl
      simp only [countDiff, List.zip_cons_cons, List.countP_cons]
      by_cases hcd : (c != d) = true
      · have hne : c ≠ d := by simpa using hcd
        rw [if_pos hcd]
        constructor
        · intro h
          have h0 : countDiff x' y' = 0 := by
            simp only [countDiff]
            omega
          have := (countDiff_zero_iff hl').mp h0
          exact ⟨[], c, d, x', hne, by simp, by simp [this]⟩
        · intro ⟨p, a, b, s, hab, hx, hy⟩
          cases p with
          | nil =>
            simp only [List.nil_append] at hx hy
            injection hx with hx1 hx2
            injection hy with hy1 hy2
            subst hx1
            subst hy1
            have h0 := countDiff_self s
            simp only [countDiff] at h0
            rw [hx2, hy2]
            simp [h0]
          | cons e p' =>
            exfalso
            simp only [List.cons_append] at hx hy
            have he1 : c = e := by injection hx
            have he2 : d = e := by injection hy
            exact hne (he1.trans he2.symm)
      · have heq : c = d := by simpa using hcd
        rw [if_neg hcd, Nat.add_zero]
        have ih' := ih hl'
        simp only [countDiff] at ih'
        rw [ih']
        subst heq
        constructor
        · intro ⟨p, a, b, s, hab, hx, hy⟩
          exact ⟨c :: p, a, b, s, hab, by simp [hx], by simp [hy]⟩
        · intro ⟨p, a, b, s, hab, hx, hy⟩
          cases p with
          | nil =>
            exfalso
            simp only [List.nil_append] at hx hy
            have ha : c = a := by injection hx
            have hb : c = b := by injection hy
            exact hab (ha.symm.trans hb)
          | cons e p' =>
            simp only [List.cons_append] at hx hy
            have hx2 : x' = p' ++ a :: s := by injection hx
            have hy2 : y' = p' ++ b :: s := by injection hy
            exact ⟨p', a, b, s, hab, hx2, hy2⟩

theorem eraseIdx_any_iff {shorter longer : List Char} :
    ((List.range longer.length).any (fun i => shorter == longer.eraseIdx i)) = true ↔
      OneDrop longer shorter := by
  rw [List.any_eq_true]
  constructor
  · intro ⟨i, hi, he⟩
    rw [List.mem_range] at hi
    have he' : shorter = longer.eraseIdx i := by simpa using he
    refine ⟨longer.take i, longer.get ⟨i, hi⟩, longer.drop (i + 1), ?_, ?_⟩
    · conv_lhs => rw [← List.take_append_drop i longer]
      rw [← List.getElem_cons_drop longer i hi]
      rfl
    · rw [he', List.eraseIdx_eq_take_drop_succ]
  · intro ⟨p, c, s, hl, hs⟩
    refine ⟨p.length, ?_, ?_⟩
    · rw [List.mem_range, hl]
      simp only [List.length_append, List.length_cons]
      omega
    · have htake : longer.take p.length = p := by rw [hl, List.take_left]
      have hdrop : longer.drop (p.length + 1) = s := by
        rw [hl, show p ++ c :: s = (p ++ [c]) ++ s by simp,
          List.drop_left' (by simp)]
      rw [List.eraseIdx_eq_take_drop_succ, htake, hdrop, hs]
      simp

/-- The classifier agrees with its specification, on all strings. -/
theorem is_single_char_correction_iff (a b : List Char) :
    is_single_char_correction a b = true ↔ SingleCharSpec a b := by
  rw [is_single_char_correction, SingleCharSpec]
  set x := pyStrip a with hx
  set y := pyStrip b with hy
  by_cases h1 : x.length = y.length
  · rw [if_pos h1]
    have hnd1 : ¬ OneDrop x y := fun h => by have := OneDrop_length h; omega
    have hnd2 : ¬ OneDrop y x := fun h => by have := OneDrop_length h; omega
    simp only [beq_iff_eq]
    rw [countDiff_one_iff h1]
    constructor
    · exact fun h => Or.inl h
    · rintro (h | h | h)
      · exact h
      · exact absurd h hnd1
      · exact absurd h hnd2
  · rw [if_neg h1]
    by_cases h2 : x.length = y.length + 1 ∨ y.length = x.length + 1
    · rw [if_pos h2]
      have hns : ¬ OneSubst x y := fun h => by have := OneSubst_length h; omega
      rcases h2 with h2 | h2
      · -- x is longer
        have hle : ¬ x.length ≤ y.length := by omega
        rw [if_neg hle, if_neg hle]
        have hnd2 : ¬ OneDrop y x := fun h => by have := OneDrop_length h; omega
        rw [eraseIdx_any_iff]
        constructor
        · exact fun h => Or.inr (Or.inl h)
        · rintro (h | h | h)
          · exact absurd h hns
          · exact h
          · exact absurd h hnd2
      · -- y is longer
        have hle : x.length ≤ y.length := by omega
        rw [if_pos hle, if_pos hle]
        have hnd1 : ¬ OneDrop x y := fun h => by have := OneDrop_length h; omega
        rw [eraseIdx_any_iff]
        constructor
        · exact fun h => Or.inr (Or.inr h)
        · rintro (h | h | h)
          · exact absurd h hns
          · exact absurd h hnd1
          · exact h
    · rw [if_neg h2]
      have hns : ¬ OneSubst x y := fun h => by have := OneSubst_length h; exact h1 this
      have hnd1 : ¬ OneDrop x y := fun h => by
        have := OneDrop_length h
        exact h2 (Or.inl this)
      have hnd2 : ¬ OneDrop y x := fun h => by
        have := OneDrop_length h
        exact h2 (Or.inr this)
      simp only [Bool.false_eq_true, false_iff]
      rintro (h | h | h)
      · exact hns h
      · exact hnd1 h
      · exact hnd2 h

/-! ## Facts about `remove_space` -/

theorem getD_mem {α : Type} : ∀ (l : List α) (i : Nat) (d : α), i < l.length →
    l.getD i d ∈ l := by
  intro l
  induction l with
  | nil => intro i d h; simp at h
  | cons a l' ih =>
    intro i d h
    cases i with
    | zero => simp
    | succ j =>
      have := ih j d (by simpa using h)
      rw [List.getD_cons_succ]
      exact List.mem_cons_of_mem a this

/-- The merged token list built by `remove_space` (`parts[idx] += parts[idx+1]`,
`parts.pop(idx+1)`). -/
def mergeAt (parts : List (List Char)) (idx : Nat) : List (List Char) :=
  parts.take idx ++ [parts.getD idx [] ++ parts.getD (idx + 1) []] ++
    parts.drop (idx + 2)

theorem mergeAt_length {parts : List (List Char)} {idx : Nat}
    (h : idx + 1 < parts.length) : (mergeAt parts idx).length = parts.length - 1 := by
  rw [mergeAt]
  simp only [List.length_append, List.length_take, List.length_cons,
    List.length_nil, List.length_drop]
  omega

theorem mergeAt_clean {parts : List (List Char)} {idx : Nat}
    (h : idx + 1 < parts.length) (hc : ∀ p ∈ parts, cleanTok p) :
    ∀ p ∈ mergeAt parts idx, cleanTok p := by
  intro p hp
  rw [mergeAt] at hp
  rcases List.mem_append.mp hp with hp | hp
  · rcases List.mem_append.mp hp with hp | hp
    · exact hc p (List.mem_of_mem_take hp)
    · have hpm : p = parts.getD idx [] ++ parts.getD (idx + 1) [] := by simpa using hp
      have h1 := hc _ (getD_mem parts idx [] (by omega))
      have h2 := hc _ (getD_mem parts (idx + 1) [] h)
      subst hpm
      refine ⟨fun hcon => h1.1 (List.append_eq_nil.mp hcon).1, ?_⟩
      intro c hcm
      rcases List.mem_append.mp hcm with hm | hm
      · exact h1.2 c hm
      · exact h2.2 c hm
  · exact hc p (List.mem_of_mem_drop hp)

/-- `remove_space` on a text of at least two tokens: the result has exactly one
token fewer; on fewer than two tokens it returns the input unchanged. -/
theorem remove_space_spec (text : List Char) (r : Rng) :
    (2 ≤ (pySplit text).length →
      (pySplit (remove_space text r).1).length + 1 = (pySplit text).length) ∧
    ((pySplit text).length < 2 → (remove_space text r).1 = text) := by
  constructor
  · intro h2
    have hn : ¬ (pySplit text).length < 2 := by omega
    rw [remove_space]
    simp only [if_neg hn]
    have hidx : (randNat r ((pySplit text).length - 1)).1 < (pySplit text).length - 1 := by
      rw [randNat]
      exact Nat.mod_lt _ (by omega)
    set idx := (randNat r ((pySplit text).length - 1)).1 with hidxdef
    have hbound : idx + 1 < (pySplit text).length := by omega
    have hclean := mergeAt_clean hbound (pySplit_good text)
    have hjoin := pySplit_pyJoin (mergeAt (pySplit text) idx) hclean
    simp only [mergeAt] at hjoin
    rw [hjoin]
    have := mergeAt_length hbound
    rw [mergeAt] at this
    rw [this]
    omega
  · intro h2
    rw [remove_space]
    simp [if_pos h2]

/-! ## The shuffle model permutes its input -/

theorem perm_getD_eraseIdx {α : Type} (d : α) :
    ∀ (l : List α) (i : Nat), i < l.length → l.Perm (l.getD i d :: l.eraseIdx i) := by
  intro l
  induction l with
  | nil => intro i h; simp at h
  | cons a t ih =>
    intro i h
    cases i with
    | zero => simp [List.eraseIdx]
    | succ j =>
      have hj : j < t.length := by simpa using h
      have hstep := ih j hj
      rw [List.getD_cons_succ, List.eraseIdx_cons_succ]
      exact List.Perm.trans (List.Perm.cons a hstep) (List.Perm.swap _ _ _)

theorem shuffleF_perm {α : Type} [Inhabited α] :
    ∀ (fuel : Nat) (l : List α) (r : Rng), l.length ≤ fuel →
      (shuffleF fuel l r).1.Perm l := by
  intro fuel
  induction fuel with
  | zero =>
    intro l r h
    have : l = [] := List.eq_nil_of_length_eq_zero (Nat.le_zero.mp h)
    subst this
    simp [shuffleF]
  | succ n ih =>
    intro l r h
    cases l with
    | nil => simp [shuffleF]
    | cons x xs =>
      rw [shuffleF]
      have hi : (randNat r (x :: xs).length).1 < (x :: xs).length := by
        rw [randNat]
        exact Nat.mod_lt _ (by simp)
      have hlen : ((x :: xs).eraseIdx (randNat r (x :: xs).length).1).length ≤ n := by
        rw [List.length_eraseIdx_of_lt hi]
        simp only [List.length_cons] at h ⊢
        omega
      have hrec := ih _ (randNat r (x :: xs).length).2 hlen
      refine List.Perm.trans (List.Perm.cons _ hrec) ?_
      exact (perm_getD_eraseIdx default (x :: xs) _ hi).symm

/-! ## Pipeline lemmas: the null-correction filter and the single-char cap -/

theorem mem_shuffleModel {α : Type} [Inhabited α] {l : List α} {r : Rng} {x : α}
    (h : x ∈ (shuffleModel l r).1) : x ∈ l :=
  ((shuffleF_perm l.length l r le_rfl).mem_iff).mp h

theorem countP_shuffleModel {α : Type} [Inhabited α] (p : α → Bool) (l : List α)
    (r : Rng) : (shuffleModel l r).1.countP p = l.countP p :=
  (shuffleF_perm l.length l r le_rfl).countP_eq p

theorem chained_retry_ok (cat : ChainedCatalog) (tbl : VarTable) (count : Nat) :
    ∀ (f : Nat) (exs : List TrainingExample) (r : Rng),
      (∀ ex ∈ exs, okPair ex = true) →
      ∀ ex ∈ (chained_retry cat tbl count f exs r).1, okPair ex = true := by
  intro f
  induction f with
  | zero => intro exs r h ex hm; exact h ex hm
  | succ n ih =>
    intro exs r h ex hm
    rw [chained_retry] at hm
    by_cases hlt : exs.length < count
    · rw [if_pos hlt] at hm
      refine ih _ _ ?_ ex hm
      intro x hx
      rcases List.mem_append.mp hx with hx | hx
      · exact h x hx
      · exact List.of_mem_filter hx
    · rw [if_neg hlt] at hm
      exact h ex hm

/-- Every example returned by `ChainedCommandGenerator.generate` passes the
null-correction filter. -/
theorem chained_generate_ok (cat : ChainedCatalog) (tbl : VarTable) (count : Nat)
    (r : Rng) : ∀ ex ∈ (chained_generate cat tbl count r).1, okPair ex = true := by
  intro ex hm
  rw [chained_generate] at hm
  have h1 := List.mem_of_mem_take hm
  have h2 := mem_shuffleModel h1
  exact chained_retry_ok cat tbl count 3 _ _ (fun x hx => List.of_mem_filter hx) ex h2

theorem mem_capSingleChar {count : Nat} {exs : List TrainingExample} {r : Rng}
    {ex : TrainingExample} (h : ex ∈ (capSingleChar count exs r).1) : ex ∈ exs := by
  rw [capSingleChar] at h
  have h1 := mem_shuffleModel h
  rcases List.mem_append.mp h1 with h2 | h2
  · exact List.mem_of_mem_filter h2
  · by_cases hlt : maxSingleChar count < (exs.filter exSingle).length
    · rw [if_pos hlt] at h2
      exact List.mem_of_mem_filter (List.mem_of_mem_take h2)
    · rw [if_neg hlt] at h2
      exact List.mem_of_mem_filter h2

/-- The recombined list after the cap holds at most `int(count * 0.05)` examples
classified as single-character corrections. -/
theorem capSingleChar_bound (count : Nat) (exs : List TrainingExample) (r : Rng) :
    (capSingleChar count exs r).1.countP exSingle ≤ maxSingleChar count := by
  rw [capSingleChar, countP_shuffleModel, List.countP_append]
  have hmulti : (exs.filter (fun ex => !exSingle ex)).countP exSingle = 0 := by
    rw [List.countP_eq_zero]
    intro a ha
    have := List.of_mem_filter ha
    simp only [Bool.not_eq_true'] at this
    simp [this]
  rw [hmulti, Nat.zero_add]
  by_cases hlt : maxSingleChar count < (exs.filter exSingle).length
  · rw [if_pos hlt]
    exact Nat.le_trans (List.countP_le_length _)
      (by simp [List.length_take_le])
  · rw [if_neg hlt]
    exact Nat.le_trans (List.countP_le_length _) (by omega)

theorem tools_retry_inner_ok (allTools : List (List Char × List Char × ToolCmd))
    (tbl : VarTable) : ∀ (m : Nat) (exs : List TrainingExample) (r : Rng),
      (∀ ex ∈ exs, okPair ex = true) →
      ∀ ex ∈ (tools_retry_inner allTools tbl m exs r).1, okPair ex = true := by
  intro m
  induction m with
  | zero => intro exs r h ex hm; exact h ex hm
  | succ n ih =>
    intro exs r h ex hm
    rw [tools_retry_inner] at hm
    rcases hch : choose r allTools with ⟨trip, r1⟩
    rw [hch] at hm
    rcases hce : tools_create_example tbl (str "bash") trip.1 trip.2.1 trip.2.2 r1
      with ⟨exOpt, r2⟩
    dsimp only at hm
    rw [hce] at hm
    cases exOpt with
    | none => exact ih _ _ h ex hm
    | some ex' =>
      dsimp only at hm
      by_cases hok : okPair ex' = true
      · rw [if_pos hok] at hm
        refine ih _ _ ?_ ex hm
        intro x hx
        rcases List.mem_append.mp hx with hx | hx
        · exact h x hx
        · have hxe : x = ex' := by simpa using hx
          rw [hxe]
          exact hok
      · rw [if_neg hok] at hm
        exact ih _ _ h ex hm

theorem tools_retry_rounds_ok (allTools : List (List Char × List Char × ToolCmd))
    (tbl : VarTable) (count : Nat) : ∀ (f : Nat) (exs : List TrainingExample) (r : Rng),
      (∀ ex ∈ exs, okPair ex = true) →
      ∀ ex ∈ (tools_retry_rounds allTools tbl count f exs r).1, okPair ex = true := by
  intro f
  induction f with
  | zero => intro exs r h ex hm; exact h ex hm
  | succ n ih =>
    intro exs r h ex hm
    rw [tools_retry_rounds] at hm
    by_cases hlt : exs.length < count
    · rw [if_pos hlt] at hm
      exact ih _ _ (tools_retry_inner_ok allTools tbl _ _ _ h) ex hm
    · rw [if_neg hlt] at hm
      exact h ex hm

/-- Every example returned by `ToolsGenerator.generate` passes the
null-correction filter. -/
theorem tools_generate_ok (catalog : ToolsCatalog) (tbl : VarTable) (count : Nat)
    (r : Rng) : ∀ ex ∈ (tools_generate catalog tbl count r).1, okPair ex = true := by
  intro ex hm
  rw [tools_generate] at hm
  have h1 := List.mem_of_mem_take hm
  have h2 := mem_capSingleChar h1
  have h3 := mem_shuffleModel h2
  exact tools_retry_rounds_ok _ tbl count 3 _ _ (fun x hx => List.of_mem_filter hx) ex h3

/-- The output of `ToolsGenerator.generate` carries at most `int(count * 0.05)`
single-character corrections. -/
theorem tools_generate_bound (catalog : ToolsCatalog) (tbl : VarTable) (count : Nat)
    (r : Rng) :
    (tools_generate catalog tbl count r).1.countP exSingle ≤ maxSingleChar count := by
  rw [tools_generate]
  refine Nat.le_trans ((List.take_sublist _ _).countP_le _) ?_
  exact capSingleChar_bound count _ _

theorem single_retry_rounds_ok (templates : SingleTemplates) (tbl : VarTable)
    (count : Nat) : ∀ (f : Nat) (exs : List TrainingExample) (r : Rng),
      (∀ ex ∈ exs, okPair ex = true) →
      ∀ ex ∈ (single_retry_rounds templates tbl count f exs r).1, okPair ex = true := by
  intro f
  induction f with
  | zero => intro exs r h ex hm; exact h ex hm
  | succ n ih =>
    intro exs r h ex hm
    rw [single_retry_rounds] at hm
    by_cases hlt : exs.length < count
    · rw [if_pos hlt] at hm
      refine ih _ _ ?_ ex hm
      intro x hx
      rcases List.mem_append.mp hx with hx | hx
      · exact h x hx
      · exact List.of_mem_filter hx
    · rw [if_neg hlt] at hm
      exact h ex hm

/-- Every example returned by `SingleCommandGenerator.generate` passes the
null-correction filter. -/
theorem single_generate_ok (templates : SingleTemplates) (tbl : VarTable)
    (count : Nat) (r : Rng) :
    ∀ ex ∈ (single_generate templates tbl count r).1, okPair ex = true := by
  intro ex hm
  rw [single_generate] at hm
  have h1 := List.mem_of_mem_take hm
  have h2 := mem_capSingleChar h1
  have h3 := mem_shuffleModel h2
  exact single_retry_rounds_ok templates tbl count 3 _ _
    (fun x hx => List.of_mem_filter hx) ex h3

/-- The output of `SingleCommandGenerator.generate` carries at most
`int(count * 0.05)` single-character corrections. -/
theorem single_generate_bound (templates : SingleTemplates) (tbl : VarTable)
    (count : Nat) (r : Rng) :
    (single_generate templates tbl count r).1.countP exSingle ≤ maxSingleChar count := by
  rw [single_generate]
  refine Nat.le_trans ((List.take_sublist _ _).countP_le _) ?_
  exact capSingleChar_bound count _ _

/-- Every example returned by `NaturalLanguageGenerator.generate` passes the
null-correction filter. -/
theorem nl_generate_ok (data : NLData) (tbl : VarTable) (count : Nat) (r : Rng) :
    ∀ ex ∈ (nl_generate data tbl count r).1, okPair ex = true := by
  intro ex hm
  rw [nl_generate] at hm
  have h1 := List.mem_of_mem_take hm
  have h2 := mem_shuffleModel h1
  exact List.of_mem_filter h2

/-! ## The extracted binding: its keys are the template's placeholder names -/

theorem scanPlaceholdersF_good : ∀ (fuel : Nat) (t : List Char),
    ∀ w ∈ scanPlaceholdersF fuel t, goodName w := by
  intro fuel
  induction fuel with
  | zero => intro t w hw; cases t <;> simp [scanPlaceholdersF] at hw
  | succ n ih =>
    intro t w hw
    cases t with
    | nil => simp [scanPlaceholdersF] at hw
    | cons c cs =>
      rw [scanPlaceholdersF] at hw
      by_cases hcond : c == '{' ∧ cs.takeWhile wordChar ≠ [] ∧
          leadsWith ['}'] (cs.dropWhile wordChar)
      · rw [if_pos hcond] at hw
        rcases List.mem_cons.mp hw with hw | hw
        · subst hw
          exact ⟨hcond.2.1, fun x hx => List.mem_takeWhile_imp hx⟩
        · exact ih _ w hw
      · rw [if_neg hcond] at hw
        exact ih _ w hw

theorem scanPlaceholders_good (t : List Char) :
    ∀ w ∈ scanPlaceholders t, goodName w := scanPlaceholdersF_good t.length t

theorem extract_fold_keys (tbl : VarTable) :
    ∀ (l : List (List Char)) (acc : List (List Char × List Char) × Rng),
      ∀ kv ∈ (l.foldl
        (fun (acc : List (List Char × List Char) × Rng) ph =>
          if acc.1.any (fun kv => kv.1 == ph) then acc
          else
            let (v, r') := get_random_variable tbl ph acc.2
            (acc.1 ++ [(ph, v)], r'))
        acc).1, kv ∈ acc.1 ∨ kv.1 ∈ l := by
  intro l
  induction l with
  | nil => intro acc kv hkv; exact Or.inl hkv
  | cons ph l' ih =>
    intro acc kv hkv
    rw [List.foldl_cons] at hkv
    rcases ih _ kv hkv with hin | hin
    · by_cases hpresent : acc.1.any (fun kv => kv.1 == ph) = true
      · rw [if_pos hpresent] at hin
        exact Or.inl hin
      · rw [if_neg hpresent] at hin
        rcases List.mem_append.mp hin with hin | hin
        · exact Or.inl hin
        · have : kv = (ph, (get_random_variable tbl ph acc.2).1) := by simpa using hin
          right
          rw [this]
          simp
    · right
      simp [hin]

/-- Every key of the binding `_extract_variables` builds is one of the
template's placeholder names (and hence a valid word name). -/
theorem extract_variables_keys (tbl : VarTable) (template : List Char) (r : Rng) :
    ∀ kv ∈ (extract_variables tbl template r).1, kv.1 ∈ scanPlaceholders template := by
  intro kv hkv
  rw [extract_variables] at hkv
  rcases extract_fold_keys tbl (scanPlaceholders template) ([], r) kv hkv with h | h
  · simp at h
  · exact h

theorem extract_variables_keys_good (tbl : VarTable) (template : List Char) (r : Rng) :
    ∀ kv ∈ (extract_variables tbl template r).1, goodName kv.1 := fun kv hkv =>
  scanPlaceholders_good template kv.1 (extract_variables_keys tbl template r kv hkv)

/-! ## Branch behaviour of the example builders -/

theorem choose_mem {α : Type} [Inhabited α] {l : List α} (r : Rng) (h : l ≠ []) :
    (choose r l).1 ∈ l := by
  rw [choose]
  exact getD_mem l _ default (Nat.mod_lt _ (by simpa using List.length_pos.mpr h))

/-- When the author-supplied branch is taken (wrong templates exist, the draw is
below 0.7) and the expanded candidate is not a null correction,
`ChainedCommandGenerator._create_example_from_pattern` emits exactly the chosen
wrong template and the correct template expanded under one shared binding. -/
theorem chained_create_example_author (tbl : VarTable) (shell : List Char)
    (p : Pattern) (et : List Char) (r : Rng)
    (hc : ¬ p.correct = []) (herr : ¬ p.errors = [])
    (hq : (randFloat (extract_variables tbl p.correct r).2).1 < mkRat 7 10)
    (hnn : pyStrip (expand_template
        (choose (randFloat (extract_variables tbl p.correct r).2).2 p.errors).1
        (extract_variables tbl p.correct r).1) ≠
      pyStrip (expand_template p.correct (extract_variables tbl p.correct r).1)) :
    (choose (randFloat (extract_variables tbl p.correct r).2).2 p.errors).1 ∈ p.errors ∧
    (chained_create_example tbl shell p et r).1 = some
      { shell := shell,
        incorrect_command := expand_template
          (choose (randFloat (extract_variables tbl p.correct r).2).2 p.errors).1
          (extract_variables tbl p.correct r).1,
        correct_command := expand_template p.correct (extract_variables tbl p.correct r).1,
        category := p.category, error_type := et,
        source := str "chained_pattern", metadata := [] } := by
  refine ⟨choose_mem _ herr, ?_⟩
  rw [chained_create_example, if_neg hc]
  dsimp only
  rw [if_pos herr, if_pos hq]
  dsimp only
  rw [if_neg (by simpa using hnn)]

/-- The single-character retry loop of `ToolsGenerator._create_example` leaves a
candidate that is not classified single-character untouched. -/
theorem tools_retry_single_char_id (cmd : ToolCmd)
    (binding : List (List Char × List Char)) (correct : List Char) (f : Nat)
    (inc : List Char) (r : Rng) (h : ¬ is_single_char_correction inc correct = true) :
    tools_retry_single_char cmd binding correct f inc r = (inc, r) := by
  cases f with
  | zero => rfl
  | succ n => rw [tools_retry_single_char, if_neg h]

/-- The author-supplied branch of `ToolsGenerator._create_example`: wrong
templates exist, the draw is below 0.7, the expanded candidate is neither a
single-character correction nor a null correction; the emitted pair is the
chosen wrong template and the correct template expanded under one shared
binding. -/
theorem tools_create_example_author (tbl : VarTable)
    (shell category tool_name : List Char) (cmd : ToolCmd) (r : Rng)
    (hc : ¬ cmd.correct = []) (herr : ¬ cmd.errors = [])
    (hq : (randFloat (extract_variables tbl cmd.correct r).2).1 < mkRat 7 10)
    (hsc : ¬ is_single_char_correction
      (expand_template
        (choose (randFloat (extract_variables tbl cmd.correct r).2).2 cmd.errors).1
        (extract_variables tbl cmd.correct r).1)
      (expand_template cmd.correct (extract_variables tbl cmd.correct r).1) = true)
    (hnn : pyStrip (expand_template
        (choose (randFloat (extract_variables tbl cmd.correct r).2).2 cmd.errors).1
        (extract_variables tbl cmd.correct r).1) ≠
      pyStrip (expand_template cmd.correct (extract_variables tbl cmd.correct r).1)) :
    (choose (randFloat (extract_variables tbl cmd.correct r).2).2 cmd.errors).1 ∈
      cmd.errors ∧
    (tools_create_example tbl shell category tool_name cmd r).1 = some
      { shell := shell,
        incorrect_command := expand_template
          (choose (randFloat (extract_variables tbl cmd.correct r).2).2 cmd.errors).1
          (extract_variables tbl cmd.correct r).1,
        correct_command := expand_template cmd.correct (extract_variables tbl cmd.correct r).1,
        category := str "tools_" ++ category, error_type := str "tool_specific",
        source := str "tools_pattern", metadata := [(str "tool", tool_name)] } := by
  refine ⟨choose_mem _ herr, ?_⟩
  rw [tools_create_example, if_neg hc]
  dsimp only
  rw [if_pos herr, if_pos hq]
  dsimp only
  rw [tools_retry_single_char_id _ _ _ _ _ _ hsc]
  dsimp only
  rw [if_neg (by simpa using hnn)]

/-- The predefined-error branch of `SingleCommandGenerator._generate_incorrect`
is taken exactly below the 0.6 threshold: below it the function returns a
chosen predefined error expanded under the shared binding. -/
theorem single_generate_incorrect_predef (correct : List Char)
    (errors : List (List Char)) (et shell : List Char)
    (binding : List (List Char × List Char)) (r : Rng)
    (herr : ¬ errors = []) (hq : (randFloat r).1 < mkRat 6 10) :
    (choose (randFloat r).2 errors).1 ∈ errors ∧
    (single_generate_incorrect correct errors et shell binding r).1 =
      expand_template (choose (randFloat r).2 errors).1 binding := by
  refine ⟨choose_mem _ herr, ?_⟩
  rw [single_generate_incorrect, if_pos herr]
  dsimp only
  rw [if_pos hq]

/-- At or above the 0.6 threshold `SingleCommandGenerator._generate_incorrect`
ignores the predefined errors entirely: it behaves exactly as it would on an
entry with no predefined errors (after the one consumed draw). -/
theorem single_generate_incorrect_skip (correct : List Char)
    (errors : List (List Char)) (et shell : List Char)
    (binding : List (List Char × List Char)) (r : Rng)
    (herr : ¬ errors = []) (hq : ¬ (randFloat r).1 < mkRat 6 10) :
    single_generate_incorrect correct errors et shell binding r =
      single_generate_incorrect correct [] et shell binding (randFloat r).2 := by
  rw [single_generate_incorrect, if_pos herr]
  dsimp only
  rw [if_neg hq, single_generate_incorrect,
    if_neg (show ¬ (([] : List (List Char)) ≠ []) by simp)]

/-! ## Determinism: the output is a function of the owned seeded stream

`BaseGenerator.__init__` gives each generator its own `random.Random(seed)`;
nothing else in the generators reads any other source of randomness or ambient
state.  The model makes this explicit: a world carries the generator-owned
stream together with an arbitrary ambient stream (standing for any randomness
the process does not own, e.g. the global `random` module instance), and the
generator's translation only ever touches the owned component. -/

structure GenWorld where
  own : Rng
  ambient : Rng

/-- `ChainedCommandGenerator.generate` lifted to the world: all draws come from
the owned stream, the ambient stream is passed through untouched. -/
def chained_generate_world (cat : ChainedCatalog) (tbl : VarTable) (count : Nat)
    (w : GenWorld) : List TrainingExample × GenWorld :=
  let (es, r') := chained_generate cat tbl count w.own
  (es, { own := r', ambient := w.ambient })

/-! ## Last helper lemmas for the claim theorems -/

/-- Passing the null-correction filter is exactly the stripped inequality. -/
theorem okPair_iff (ex : TrainingExample) :
    okPair ex = true ↔ pyStrip ex.incorrect_command ≠ pyStrip ex.correct_command := by
  simp [okPair]

/-- A one-shot replacement of an occurring pattern makes the replacement occur. -/
theorem replaceOnce_has (pat repl : List Char) (hp : pat ≠ []) :
    ∀ t, pat <:+: t → repl <:+: replaceOnce pat repl t := by
  intro t
  induction t with
  | nil =>
    intro h
    exact absurd (List.sublist_nil.mp h.sublist) hp
  | cons c cs ih =>
    intro h
    rw [replaceOnce]
    by_cases hl : leadsWith pat (c :: cs) = true
    · rw [if_pos ⟨hp, hl⟩]
      exact ⟨[], cs.drop (pat.length - 1), rfl⟩
    · rw [if_neg (fun hcon => hl hcon.2)]
      rcases List.infix_cons_iff.mp h with hpre | hinf
      · exact absurd (leadsWith_iff.mpr hpre) hl
      · rcases ih hinf with ⟨s, u, hs⟩
        exact ⟨c :: s, u, by simp [hs]⟩

/-- The synthetic branch of `ChainedCommandGenerator._create_example_from_pattern`:
wrong templates exist but the draw is at or above 0.7, and the synthetic
corruption is not a null correction; the emitted incorrect command is the
corruption of the expanded correct command. -/
theorem chained_create_example_synth (tbl : VarTable) (shell : List Char)
    (p : Pattern) (et : List Char) (r : Rng)
    (hc : ¬ p.correct = []) (herr : ¬ p.errors = [])
    (hq : ¬ (randFloat (extract_variables tbl p.correct r).2).1 < mkRat 7 10)
    (hnn : pyStrip (chained_synthetic
        (expand_template p.correct (extract_variables tbl p.correct r).1) et
        (randFloat (extract_variables tbl p.correct r).2).2).1 ≠
      pyStrip (expand_template p.correct (extract_variables tbl p.correct r).1)) :
    (chained_create_example tbl shell p et r).1 = some
      { shell := shell,
        incorrect_command := (chained_synthetic
          (expand_template p.correct (extract_variables tbl p.correct r).1) et
          (randFloat (extract_variables tbl p.correct r).2).2).1,
        correct_command := expand_template p.correct (extract_variables tbl p.correct r).1,
        category := p.category, error_type := et,
        source := str "chained_pattern", metadata := [] } := by
  rw [chained_create_example, if_neg hc]
  dsimp only
  rw [if_pos herr, if_neg hq]
  rw [if_neg (by simpa using hnn)]

/-- The typo branch of `ToolsGenerator._create_example`: wrong templates exist
but the draw is at or above 0.7, and the typo corruption of the expanded
correct command is neither a single-character correction nor a null
correction; the emitted incorrect command is that corruption. -/
theorem tools_create_example_typo (tbl : VarTable)
    (shell category tool_name : List Char) (cmd : ToolCmd) (r : Rng)
    (hc : ¬ cmd.correct = []) (herr : ¬ cmd.errors = [])
    (hq : ¬ (randFloat (extract_variables tbl cmd.correct r).2).1 < mkRat 7 10)
    (hsc : ¬ is_single_char_correction
      (generate_typo
        (expand_template cmd.correct (extract_variables tbl cmd.correct r).1)
        (mkRat 1 1) (randFloat (extract_variables tbl cmd.correct r).2).2).1
      (expand_template cmd.correct (extract_variables tbl cmd.correct r).1) =
        true)
    (hnn : pyStrip (generate_typo
        (expand_template cmd.correct (extract_variables tbl cmd.correct r).1)
        (mkRat 1 1) (randFloat (extract_variables tbl cmd.correct r).2).2).1 ≠
      pyStrip (expand_template cmd.correct
        (extract_variables tbl cmd.correct r).1)) :
    (tools_create_example tbl shell category tool_name cmd r).1 = some
      { shell := shell,
        incorrect_command := (generate_typo
          (expand_template cmd.correct (extract_variables tbl cmd.correct r).1)
          (mkRat 1 1) (randFloat (extract_variables tbl cmd.correct r).2).2).1,
        correct_command := expand_template cmd.correct
          (extract_variables tbl cmd.correct r).1,
        category := str "tools_" ++ category, error_type := str "tool_specific",
        source := str "tools_pattern",
        metadata := [(str "tool", tool_name)] } := by
  rw [tools_create_example, if_neg hc]
  dsimp only
  rw [if_pos herr, if_neg hq]
  rw [tools_retry_single_char_id _ _ _ _ _ _ hsc]
  dsimp only
  rw [if_neg (by simpa using hnn)]

/-! ## Concrete catalogs, streams and runs used by witnesses and
counterexamples

Each stream is a total function; the float draws are chosen so that the
modelled run takes the branch the statement is about. -/

def w1pat : Pattern :=
  { correct := str "mkdir -p {path} && cd {path}",
    errors := [str "mkdir {path}; cd {path}"], category := str "navigation" }

def w1cat : ChainedCatalog :=
  { pipe := [(str "bash", [])], chain := [(str "bash", [w1pat])],
    redir := [(str "bash", [])] }

def w1rng : Rng := ⟨fun _ => 0, fun _ => mkRat 1 2, 0⟩

def w1ex : TrainingExample :=
  { shell := str "bash", incorrect_command := str "mkdir path; cd path",
    correct_command := str "mkdir -p path && cd path",
    category := str "navigation", error_type := str "chaining",
    source := str "chained_pattern", metadata := [] }

def c2pat : Pattern :=
  { correct := str "command 2>/dev/null",
    errors := [str "command 2> /dev/null", str "command >/dev/null 2>&1"],
    category := str "redirection" }

def c2cat : ChainedCatalog :=
  { pipe := [(str "bash", [c2pat])], chain := [(str "bash", [c2pat])],
    redir := [(str "bash", [c2pat])] }

def c2rng : Rng := ⟨fun _ => 0, fun k => if k % 4 = 0 then mkRat 3 4 else 0, 0⟩

def w4pat : Pattern :=
  { correct := str "mkdir -p {path} && cd {path}",
    errors := [str "mkdir {path}; cd {path}"], category := str "navigation" }

def w4cat : ChainedCatalog :=
  { pipe := [(str "bash", [])], chain := [(str "bash", [w4pat])],
    redir := [(str "bash", [])] }

def w4own : Rng := ⟨fun _ => 0, fun _ => mkRat 1 2, 0⟩

def w4amb1 : Rng := ⟨fun _ => 1, fun _ => mkRat 1 3, 5⟩

def w4amb2 : Rng := ⟨fun _ => 7, fun _ => mkRat 2 3, 9⟩

def w5pat : Pattern :=
  { correct := str "mkdir -p {path} && cd {path}",
    errors := [str "mkdir {path}; cd {path}"], category := str "navigation" }

def w5rng : Rng := ⟨fun _ => 0, fun _ => mkRat 1 2, 0⟩

/-! ## The claims -/

/-- C1: for every generator (single-command, chained, natural-language, tools)
and every target count, every TrainingExample in the returned list has
`incorrect_command.strip() != correct_command.strip()`: no null correction
survives to the output. -/
theorem C1_no_null_corrections :
    (∀ (templates : SingleTemplates) (tbl : VarTable) (count : Nat) (r : Rng),
      ∀ ex ∈ (single_generate templates tbl count r).1,
        pyStrip ex.incorrect_command ≠ pyStrip ex.correct_command) ∧
    (∀ (cat : ChainedCatalog) (tbl : VarTable) (count : Nat) (r : Rng),
      ∀ ex ∈ (chained_generate cat tbl count r).1,
        pyStrip ex.incorrect_command ≠ pyStrip ex.correct_command) ∧
    (∀ (data : NLData) (tbl : VarTable) (count : Nat) (r : Rng),
      ∀ ex ∈ (nl_generate data tbl count r).1,
        pyStrip ex.incorrect_command ≠ pyStrip ex.correct_command) ∧
    (∀ (catalog : ToolsCatalog) (tbl : VarTable) (count : Nat) (r : Rng),
      ∀ ex ∈ (tools_generate catalog tbl count r).1,
        pyStrip ex.incorrect_command ≠ pyStrip ex.correct_command) := by
  refine ⟨?_, ?_, ?_, ?_⟩
  · intro templates tbl count r ex hm
    exact (okPair_iff ex).mp (single_generate_ok templates tbl count r ex hm)
  · intro cat tbl count r ex hm
    exact (okPair_iff ex).mp (chained_generate_ok cat tbl count r ex hm)
  · intro data tbl count r ex hm
    exact (okPair_iff ex).mp (nl_generate_ok data tbl count r ex hm)
  · intro catalog tbl count r ex hm
    exact (okPair_iff ex).mp (tools_generate_ok catalog tbl count r ex hm)

/-- Witness for C1: a concrete chained run of target count 1 emits exactly
`w1ex`, and the theorem yields its stripped inequality. -/
theorem C1_no_null_corrections_witness :
    pyStrip w1ex.incorrect_command ≠ pyStrip w1ex.correct_command :=
  C1_no_null_corrections.2.1 w1cat [] 1 w1rng w1ex (by decide)

/-- C2 counterexample: the chained generator applies no single-character cap.
A concrete chained run of target count 2 returns 2 examples, both classified
single-character corrections, exceeding the claimed identical cap of
`ceil(2 * 0.05) = 1`. -/
theorem C2_chained_uncapped_counterexample :
    ((chained_generate c2cat [] 2 c2rng).1).length = 2 ∧
    ((chained_generate c2cat [] 2 c2rng).1).countP exSingle = 2 ∧
    Int.toNat ⌈(2 : Rat) * (5 / 100)⌉ = 1 := by
  refine ⟨by decide, by decide, ?_⟩
  have h : ⌈(2 : Rat) * (5 / 100)⌉ = 1 := by
    rw [Int.ceil_eq_iff]
    constructor <;> norm_num
  rw [h]
  rfl

/-- C2 (amended): only the single-command and tools generators cap
single-character corrections, truncating them to at most `int(count * 0.05)`
(floor, not ceil); the chained and natural-language generators apply no such
cap (see the counterexample). -/
theorem C2_cap_only_single_and_tools :
    (∀ (templates : SingleTemplates) (tbl : VarTable) (count : Nat) (r : Rng),
      ((single_generate templates tbl count r).1).countP exSingle ≤
        maxSingleChar count) ∧
    (∀ (catalog : ToolsCatalog) (tbl : VarTable) (count : Nat) (r : Rng),
      ((tools_generate catalog tbl count r).1).countP exSingle ≤
        maxSingleChar count) :=
  ⟨fun templates tbl count r => single_generate_bound templates tbl count r,
   fun catalog tbl count r => tools_generate_bound catalog tbl count r⟩

/-- C3: the classifier decides exactly the specified relation (after trimming,
equal length with exactly one differing position, or lengths off by one with
the shorter equal to the longer with one character removed), and gives the
four documented answers. -/
theorem C3_single_char_classifier :
    (∀ a b : List Char,
      is_single_char_correction a b = true ↔ SingleCharSpec a b) ∧
    is_single_char_correction (str "ls -la") (str "ls -lA") = true ∧
    is_single_char_correction (str "cat file") (str "cat files") = true ∧
    is_single_char_correction (str "git status") (str "git stats") = true ∧
    is_single_char_correction (str "ls") (str "ls -la") = false :=
  ⟨is_single_char_correction_iff, by decide, by decide, by decide, by decide⟩

/-- C4: the chained generator's output is a function of the generator-owned
seeded stream alone.  Two worlds agreeing on the owned stream produce
identical output lists whatever their ambient randomness, and the ambient
stream passes through untouched, so a fixed seed reproduces the segment. -/
theorem C4_seed_determinism (cat : ChainedCatalog) (tbl : VarTable)
    (count : Nat) (w₁ w₂ : GenWorld) (h : w₁.own = w₂.own) :
    (chained_generate_world cat tbl count w₁).1 =
      (chained_generate_world cat tbl count w₂).1 ∧
    ((chained_generate_world cat tbl count w₁).2).ambient = w₁.ambient := by
  constructor
  · show (chained_generate cat tbl count w₁.own).1 =
      (chained_generate cat tbl count w₂.own).1
    rw [h]
  · rfl

/-- Witness for C4: two concrete worlds share the owned stream but have
different ambient streams; the outputs coincide. -/
theorem C4_seed_determinism_witness :
    (chained_generate_world w4cat [] 1 { own := w4own, ambient := w4amb1 }).1 =
      (chained_generate_world w4cat [] 1 { own := w4own, ambient := w4amb2 }).1 :=
  (C4_seed_determinism w4cat [] 1
    { own := w4own, ambient := w4amb1 }
    { own := w4own, ambient := w4amb2 } rfl).1

/-- C5: in the author-supplied branch, the chained and tools builders sample
one binding and apply it to both sides: the emitted pair is
`expand_template wrong binding` against `expand_template correct binding` for
the same binding, so every shared placeholder expands to the identical
value. -/
theorem C5_shared_binding :
    (∀ (tbl : VarTable) (shell : List Char) (p : Pattern) (et : List Char)
      (r : Rng),
      ¬ p.correct = [] → ¬ p.errors = [] →
      (randFloat (extract_variables tbl p.correct r).2).1 < mkRat 7 10 →
      pyStrip (expand_template
          (choose (randFloat (extract_variables tbl p.correct r).2).2
            p.errors).1
          (extract_variables tbl p.correct r).1) ≠
        pyStrip (expand_template p.correct
          (extract_variables tbl p.correct r).1) →
      ∃ errT ∈ p.errors, ∃ ex : TrainingExample,
        (chained_create_example tbl shell p et r).1 = some ex ∧
        ex.correct_command =
          expand_template p.correct (extract_variables tbl p.correct r).1 ∧
        ex.incorrect_command =
          expand_template errT (extract_variables tbl p.correct r).1) ∧
    (∀ (tbl : VarTable) (shell category tool_name : List Char) (cmd : ToolCmd)
      (r : Rng),
      ¬ cmd.correct = [] → ¬ cmd.errors = [] →
      (randFloat (extract_variables tbl cmd.correct r).2).1 < mkRat 7 10 →
      ¬ is_single_char_correction
          (expand_template
            (choose (randFloat (extract_variables tbl cmd.correct r).2).2
              cmd.errors).1
            (extract_variables tbl cmd.correct r).1)
          (expand_template cmd.correct
            (extract_variables tbl cmd.correct r).1) = true →
      pyStrip (expand_template
          (choose (randFloat (extract_variables tbl cmd.correct r).2).2
            cmd.errors).1
          (extract_variables tbl cmd.correct r).1) ≠
        pyStrip (expand_template cmd.correct
          (extract_variables tbl cmd.correct r).1) →
      ∃ errT ∈ cmd.errors, ∃ ex : TrainingExample,
        (tools_create_example tbl shell category tool_name cmd r).1 = some ex ∧
        ex.correct_command =
          expand_template cmd.correct (extract_variables tbl cmd.correct r).1 ∧
        ex.incorrect_command =
          expand_template errT (extract_variables tbl cmd.correct r).1) := by
  constructor
  · intro tbl shell p et r hc herr hq hnn
    rcases chained_create_example_author tbl shell p et r hc herr hq hnn with
      ⟨hmem, heq⟩
    exact ⟨_, hmem, _, heq, rfl, rfl⟩
  · intro tbl shell category tool_name cmd r hc herr hq hsc hnn
    rcases tools_create_example_author tbl shell category tool_name cmd r hc
      herr hq hsc hnn with ⟨hmem, heq⟩
    exact ⟨_, hmem, _, heq, rfl, rfl⟩

/-- Witness for C5: a concrete chained pattern with a `\x7bpath\x7d` placeholder in
both templates; in the author branch both sides expand under the one sampled
binding. -/
theorem C5_shared_binding_witness :
    ∃ errT ∈ w5pat.errors, ∃ ex : TrainingExample,
      (chained_create_example [] (str "bash") w5pat (str "chaining") w5rng).1 =
        some ex ∧
      ex.correct_command =
        expand_template w5pat.correct (extract_variables [] w5pat.correct w5rng).1 ∧
      ex.incorrect_command =
        expand_template errT (extract_variables [] w5pat.correct w5rng).1 :=
  C5_shared_binding.1 [] (str "bash") w5pat (str "chaining") w5rng
    (by decide) (by decide) (by decide) (by decide)

def c6rng : Rng :=
  ⟨fun _ => 0, fun k => if k = 0 then mkRat 13 20 else mkRat 9 10, 0⟩

def w6rng : Rng := ⟨fun _ => 0, fun _ => 0, 0⟩

/-- C6 counterexample: the single-command generator's author-template branch
uses a 0.6 threshold, not the claimed uniform 0.7.  At a drawn uniform of
0.65, below 0.7, with a non-empty wrong-template list, `_generate_incorrect`
ignores the author-supplied template: the result is not its expansion. -/
theorem C6_single_threshold_counterexample :
    (randFloat c6rng).1 < mkRat 7 10 ∧
    ¬ (randFloat c6rng).1 < mkRat 6 10 ∧
    (single_generate_incorrect (str "git status") [str "git stauts"]
      (str "wrong_flag") (str "bash") [] c6rng).1 = str "git status" ∧
    str "git status" ≠ expand_template (str "git stauts") [] :=
  ⟨by decide, by decide, by decide, by decide⟩

/-- C6 (amended): the author-template branch threshold is 0.6 in the
single-command generator and 0.7 in the chained and tools generators: below
the threshold a wrong template expanded under the shared binding is emitted,
at or above it the predefined errors are ignored and a corruption primitive
is applied to the expanded correct string (the chained synthetic corruption,
a typo for tools). -/
theorem C6_author_branch_thresholds :
    (∀ (correct : List Char) (errors : List (List Char)) (et shell : List Char)
      (binding : List (List Char × List Char)) (r : Rng),
      ¬ errors = [] → (randFloat r).1 < mkRat 6 10 →
      ∃ t ∈ errors,
        (single_generate_incorrect correct errors et shell binding r).1 =
          expand_template t binding) ∧
    (∀ (correct : List Char) (errors : List (List Char)) (et shell : List Char)
      (binding : List (List Char × List Char)) (r : Rng),
      ¬ errors = [] → ¬ (randFloat r).1 < mkRat 6 10 →
      single_generate_incorrect correct errors et shell binding r =
        single_generate_incorrect correct [] et shell binding (randFloat r).2) ∧
    (∀ (tbl : VarTable) (shell : List Char) (p : Pattern) (et : List Char)
      (r : Rng),
      ¬ p.correct = [] → ¬ p.errors = [] →
      (randFloat (extract_variables tbl p.correct r).2).1 < mkRat 7 10 →
      pyStrip (expand_template
          (choose (randFloat (extract_variables tbl p.correct r).2).2
            p.errors).1
          (extract_variables tbl p.correct r).1) ≠
        pyStrip (expand_template p.correct
          (extract_variables tbl p.correct r).1) →
      ∃ t ∈ p.errors, ∃ ex : TrainingExample,
        (chained_create_example tbl shell p et r).1 = some ex ∧
        ex.incorrect_command =
          expand_template t (extract_variables tbl p.correct r).1) ∧
    (∀ (tbl : VarTable) (shell : List Char) (p : Pattern) (et : List Char)
      (r : Rng),
      ¬ p.correct = [] → ¬ p.errors = [] →
      ¬ (randFloat (extract_variables tbl p.correct r).2).1 < mkRat 7 10 →
      pyStrip (chained_synthetic
          (expand_template p.correct (extract_variables tbl p.correct r).1) et
          (randFloat (extract_variables tbl p.correct r).2).2).1 ≠
        pyStrip (expand_template p.correct
          (extract_variables tbl p.correct r).1) →
      ∃ ex : TrainingExample,
        (chained_create_example tbl shell p et r).1 = some ex ∧
        ex.incorrect_command = (chained_synthetic
          (expand_template p.correct (extract_variables tbl p.correct r).1) et
          (randFloat (extract_variables tbl p.correct r).2).2).1) ∧
    (∀ (tbl : VarTable) (shell category tool_name : List Char) (cmd : ToolCmd)
      (r : Rng),
      ¬ cmd.correct = [] → ¬ cmd.errors = [] →
      (randFloat (extract_variables tbl cmd.correct r).2).1 < mkRat 7 10 →
      ¬ is_single_char_correction
          (expand_template
            (choose (randFloat (extract_variables tbl cmd.correct r).2).2
              cmd.errors).1
            (extract_variables tbl cmd.correct r).1)
          (expand_template cmd.correct
            (extract_variables tbl cmd.correct r).1) = true →
      pyStrip (expand_template
          (choose (randFloat (extract_variables tbl cmd.correct r).2).2
            cmd.errors).1
          (extract_variables tbl cmd.correct r).1) ≠
        pyStrip (expand_template cmd.correct
          (extract_variables tbl cmd.correct r).1) →
      ∃ t ∈ cmd.errors, ∃ ex : TrainingExample,
        (tools_create_example tbl shell category tool_name cmd r).1 =
          some ex ∧
        ex.incorrect_command =
          expand_template t (extract_variables tbl cmd.correct r).1) ∧
    (∀ (tbl : VarTable) (shell category tool_name : List Char) (cmd : ToolCmd)
      (r : Rng),
      ¬ cmd.correct = [] → ¬ cmd.errors = [] →
      ¬ (randFloat (extract_variables tbl cmd.correct r).2).1 < mkRat 7 10 →
      ¬ is_single_char_correction
          (generate_typo
            (expand_template cmd.correct
              (extract_variables tbl cmd.correct r).1)
            (mkRat 1 1)
            (randFloat (extract_variables tbl cmd.correct r).2).2).1
          (expand_template cmd.correct
            (extract_variables tbl cmd.correct r).1) = true →
      pyStrip (generate_typo
          (expand_template cmd.correct (extract_variables tbl cmd.correct r).1)
          (mkRat 1 1)
          (randFloat (extract_variables tbl cmd.correct r).2).2).1 ≠
        pyStrip (expand_template cmd.correct
          (extract_variables tbl cmd.correct r).1) →
      ∃ ex : TrainingExample,
        (tools_create_example tbl shell category tool_name cmd r).1 =
          some ex ∧
        ex.incorrect_command = (generate_typo
          (expand_template cmd.correct (extract_variables tbl cmd.correct r).1)
          (mkRat 1 1)
          (randFloat (extract_variables tbl cmd.correct r).2).2).1) := by
  refine ⟨?_, ?_, ?_, ?_, ?_, ?_⟩
  · intro correct errors et shell binding r herr hq
    rcases single_generate_incorrect_predef correct errors et shell binding r
      herr hq with ⟨hmem, heq⟩
    exact ⟨_, hmem, heq⟩
  · intro correct errors et shell binding r herr hq
    exact single_generate_incorrect_skip correct errors et shell binding r
      herr hq
  · intro tbl shell p et r hc herr hq hnn
    rcases chained_create_example_author tbl shell p et r hc herr hq hnn with
      ⟨hmem, heq⟩
    exact ⟨_, hmem, _, heq, rfl⟩
  · intro tbl shell p et r hc herr hq hnn
    exact ⟨_, chained_create_example_synth tbl shell p et r hc herr hq hnn,
      rfl⟩
  · intro tbl shell category tool_name cmd r hc herr hq hsc hnn
    rcases tools_create_example_author tbl shell category tool_name cmd r hc
      herr hq hsc hnn with ⟨hmem, heq⟩
    exact ⟨_, hmem, _, heq, rfl⟩
  · intro tbl shell category tool_name cmd r hc herr hq hsc hnn
    exact ⟨_, tools_create_example_typo tbl shell category tool_name cmd r hc
      herr hq hsc hnn, rfl⟩

/-- Witness for C6 (amended): below 0.6 the single-command generator emits
the expanded author template. -/
theorem C6_author_branch_thresholds_witness :
    ∃ t ∈ [str "git stauts"],
      (single_generate_incorrect (str "git status") [str "git stauts"]
        (str "wrong_flag") (str "bash") [] w6rng).1 = expand_template t [] :=
  C6_author_branch_thresholds.1 (str "git status") [str "git stauts"]
    (str "wrong_flag") (str "bash") [] w6rng (by decide) (by decide)

/-- C7 counterexample: `expand_template` substitutes sequentially, one bound
name at a time over the already-mutated string, so a value that mentions a
later key is expanded again, unlike the specified single simultaneous
substitution: on the one-placeholder template for name `a` with binding
`a` to the placeholder for `b` and `b` to `y`, it returns `y`, while the
simultaneous reading leaves the placeholder for `b` verbatim. -/
theorem C7_sequential_expansion_counterexample :
    expand_template (braceOf (str "a"))
        [(str "a", braceOf (str "b")), (str "b", str "y")] = str "y" ∧
    expandSpec [(str "a", braceOf (str "b")), (str "b", str "y")]
        (braceOf (str "a")) = braceOf (str "b") ∧
    str "y" ≠ braceOf (str "b") :=
  ⟨by decide, by decide, by decide⟩

/-- C7 (amended): expansion is sequential in binding order; it coincides with
simultaneous substitution on the empty and the single-entry binding; a
placeholder whose word-character name differs from every bound key survives
verbatim; and the claim's two examples hold. -/
theorem C7_expansion_amended :
    (∀ t, expand_template t [] = t) ∧
    (∀ t k v, expand_template t [(k, v)] = expandSpec [(k, v)] t) ∧
    (∀ (binding : List (List Char × List Char)) (name t : List Char),
      goodName name → (∀ kv ∈ binding, goodName kv.1 ∧ kv.1 ≠ name) →
      braceOf name <:+: t → braceOf name <:+: expand_template t binding) ∧
    expand_template
        (str "cp " ++ braceOf (str "src") ++ str " " ++ braceOf (str "dst"))
        [(str "src", str "a.txt"), (str "dst", str "b.txt")] =
      str "cp a.txt b.txt" ∧
    expand_template (str "foo " ++ braceOf (str "zzz")) [] =
      str "foo " ++ braceOf (str "zzz") :=
  ⟨expand_template_nil, expand_template_single,
   fun binding name t hgn hb hin => expand_template_keeps hgn binding t hb hin,
   by decide, by decide⟩

/-- Witness for C7 (amended): an unbound placeholder survives a non-empty
binding verbatim. -/
theorem C7_expansion_amended_witness :
    braceOf (str "zzz") <:+:
      expand_template (str "foo " ++ braceOf (str "zzz"))
        [(str "a", str "x")] :=
  C7_expansion_amended.2.2.1 [(str "a", str "x")] (str "zzz")
    (str "foo " ++ braceOf (str "zzz")) (by decide) (by decide) (by decide)

def w8rng : Rng := ⟨fun _ => 0, fun _ => 0, 0⟩

/-- C8: on two or more whitespace-separated tokens, `remove_space` returns a
string with exactly one fewer token; on fewer than two tokens it returns the
input unchanged (and the model is total, so it never throws). -/
theorem C8_remove_space_token_count :
    (∀ (text : List Char) (r : Rng), 2 ≤ (pySplit text).length →
      (pySplit (remove_space text r).1).length + 1 = (pySplit text).length) ∧
    (∀ (text : List Char) (r : Rng), (pySplit text).length < 2 →
      (remove_space text r).1 = text) :=
  ⟨fun text r => (remove_space_spec text r).1,
   fun text r => (remove_space_spec text r).2⟩

/-- Witness for C8 at the spec's example input. -/
theorem C8_remove_space_token_count_witness :
    (pySplit (remove_space (str "mkdir -p path") w8rng).1).length + 1 =
      (pySplit (str "mkdir -p path")).length :=
  C8_remove_space_token_count.1 (str "mkdir -p path") w8rng (by decide)

def c9rng : Rng := ⟨fun _ => 0, fun _ => 0, 0⟩

def w9rng : Rng := ⟨fun _ => 0, fun _ => 0, 0⟩

/-- C9 counterexample: on an input containing the long-flag marker the
primitive demotes only when a coin flip exceeds 0.5; with a draw of 0 it
returns the input unchanged even though a demotion would have changed it. -/
theorem C9_wrong_flag_counterexample :
    hasSub (str " --") (str "git log --oneline") = true ∧
    (wrong_flag (str "git log --oneline") c9rng).1 = str "git log --oneline" ∧
    replaceOnce (str " --") (str " -") (str "git log --oneline") ≠
      str "git log --oneline" :=
  ⟨by decide, by decide, by decide⟩

/-- C9 (amended): with no short-flag marker the input is returned unchanged;
with a long-flag marker present the first occurrence is demoted exactly when
the drawn coin exceeds 0.5 and the input is returned unchanged otherwise;
with a short-flag marker but no long-flag marker the first occurrence is
promoted unconditionally, so the result then contains a long-flag marker. -/
theorem C9_wrong_flag_amended :
    (∀ (text : List Char) (r : Rng), ¬ (str " -") <:+: text →
      (wrong_flag text r).1 = text) ∧
    (∀ (text : List Char) (r : Rng), hasSub (str " --") text = true →
      (mkRat 1 2 < (randFloat r).1 →
        (wrong_flag text r).1 = replaceOnce (str " --") (str " -") text) ∧
      (¬ mkRat 1 2 < (randFloat r).1 → (wrong_flag text r).1 = text)) ∧
    (∀ (text : List Char) (r : Rng), hasSub (str " -") text = true →
      hasSub (str " --") text = false →
      (wrong_flag text r).1 = replaceOnce (str " -") (str " --") text ∧
      hasSub (str " --") (wrong_flag text r).1 = true) := by
  refine ⟨?_, ?_, ?_⟩
  · intro text r h
    have h2 : hasSub (str " --") text = false :=
      Bool.eq_false_iff.mpr fun hcon =>
        h ((by decide : (str " -") <:+: (str " --")).trans
          (hasSub_iff.mp hcon))
    have h1 : hasSub (str " -") text = false :=
      Bool.eq_false_iff.mpr fun hcon => h (hasSub_iff.mp hcon)
    rw [wrong_flag]
    simp [h2, h1]
  · intro text r h
    constructor
    · intro hq
      rw [wrong_flag, if_pos h]
      dsimp only
      rw [if_pos hq]
    · intro hq
      rw [wrong_flag, if_pos h]
      dsimp only
      rw [if_neg hq]
  · intro text r h1 h2
    have heq : (wrong_flag text r).1 = replaceOnce (str " -") (str " --") text := by
      rw [wrong_flag]
      simp [h2, h1]
    refine ⟨heq, ?_⟩
    rw [heq]
    exact hasSub_iff.mpr (replaceOnce_has _ _ (by decide) text
      (hasSub_iff.mp h1))

/-- Witness for C9 (amended): promotion on a short flag with no long flag. -/
theorem C9_wrong_flag_amended_witness :
    (wrong_flag (str "ls -la") w9rng).1 =
      replaceOnce (str " -") (str " --") (str "ls -la") ∧
    hasSub (str " --") (wrong_flag (str "ls -la") w9rng).1 = true :=
  C9_wrong_flag_amended.2.2 (str "ls -la") w9rng (by decide) (by decide)

def w10cmd : ToolCmd :=
  { correct := str "mkdir " ++ braceOf (str "path"),
    errors := [str "mkdir " ++ braceOf (str "path") ++ str " " ++
      braceOf (str "mode")] }

def w10rng : Rng := ⟨fun _ => 0, fun _ => mkRat 1 2, 0⟩

/-- C10: the binding for a synthesis attempt is extracted from the correct
template only, so a word-character placeholder name of the chosen wrong
template that does not occur among the correct template's placeholders is
neither sampled nor stripped: it survives verbatim, braces included, in the
emitted incorrect command, in the chained and tools generators alike. -/
theorem C10_foreign_placeholder_verbatim :
    (∀ (tbl : VarTable) (shell : List Char) (p : Pattern) (et : List Char)
      (r : Rng) (name : List Char),
      goodName name → name ∉ scanPlaceholders p.correct →
      ¬ p.correct = [] → ¬ p.errors = [] →
      (randFloat (extract_variables tbl p.correct r).2).1 < mkRat 7 10 →
      pyStrip (expand_template
          (choose (randFloat (extract_variables tbl p.correct r).2).2
            p.errors).1
          (extract_variables tbl p.correct r).1) ≠
        pyStrip (expand_template p.correct
          (extract_variables tbl p.correct r).1) →
      braceOf name <:+:
        (choose (randFloat (extract_variables tbl p.correct r).2).2
          p.errors).1 →
      ∃ ex : TrainingExample,
        (chained_create_example tbl shell p et r).1 = some ex ∧
        braceOf name <:+: ex.incorrect_command) ∧
    (∀ (tbl : VarTable) (shell category tool_name : List Char) (cmd : ToolCmd)
      (r : Rng) (name : List Char),
      goodName name → name ∉ scanPlaceholders cmd.correct →
      ¬ cmd.correct = [] → ¬ cmd.errors = [] →
      (randFloat (extract_variables tbl cmd.correct r).2).1 < mkRat 7 10 →
      ¬ is_single_char_correction
          (expand_template
            (choose (randFloat (extract_variables tbl cmd.correct r).2).2
              cmd.errors).1
            (extract_variables tbl cmd.correct r).1)
          (expand_template cmd.correct
            (extract_variables tbl cmd.correct r).1) = true →
      pyStrip (expand_template
          (choose (randFloat (extract_variables tbl cmd.correct r).2).2
            cmd.errors).1
          (extract_variables tbl cmd.correct r).1) ≠
        pyStrip (expand_template cmd.correct
          (extract_variables tbl cmd.correct r).1) →
      braceOf name <:+:
        (choose (randFloat (extract_variables tbl cmd.correct r).2).2
          cmd.errors).1 →
      ∃ ex : TrainingExample,
        (tools_create_example tbl shell category tool_name cmd r).1 = some ex ∧
        braceOf name <:+: ex.incorrect_command) := by
  constructor
  · intro tbl shell p et r name hgn hnotin hc herr hq hnn hin
    rcases chained_create_example_author tbl shell p et r hc herr hq hnn with
      ⟨_, heq⟩
    refine ⟨_, heq, ?_⟩
    exact expand_template_keeps hgn _ _
      (fun kv hkv =>
        ⟨extract_variables_keys_good tbl p.correct r kv hkv,
         fun he =>
           hnotin (he ▸ extract_variables_keys tbl p.correct r kv hkv)⟩)
      hin
  · intro tbl shell category tool_name cmd r name hgn hnotin hc herr hq hsc
      hnn hin
    rcases tools_create_example_author tbl shell category tool_name cmd r hc
      herr hq hsc hnn with ⟨_, heq⟩
    refine ⟨_, heq, ?_⟩
    exact expand_template_keeps hgn _ _
      (fun kv hkv =>
        ⟨extract_variables_keys_good tbl cmd.correct r kv hkv,
         fun he =>
           hnotin (he ▸ extract_variables_keys tbl cmd.correct r kv hkv)⟩)
      hin

/-- Witness for C10: a tools command whose wrong template carries the foreign
placeholder name `mode`; the emitted incorrect command keeps it verbatim. -/
theorem C10_foreign_placeholder_verbatim_witness :
    ∃ ex : TrainingExample,
      (tools_create_example [] (str "bash") (str "build") (str "mk") w10cmd
        w10rng).1 = some ex ∧
      braceOf (str "mode") <:+: ex.incorrect_command :=
  C10_foreign_placeholder_verbatim.2 [] (str "bash") (str "build") (str "mk")
    w10cmd w10rng (str "mode") (by decide) (by decide) (by decide) (by decide)
    (by decide) (by decide) (by decide) (by decide)

end FixCorpus
